import Mathlib

/-! B3 text-map propagation (`propagation.go`)

A shallow embedding of the `textMapPropagator` codec: the two transform
profiles (`newTextMapPropagator`, `newHTTPHeaderPropagator`), `Inject` and
`Extract`, together with the Go standard-library functions they call
(`strconv.FormatUint`, `strconv.ParseUint`, `url.QueryEscape`,
`url.QueryUnescape`, `strings.ToLower`).

Go strings are byte sequences, `uint64` values are natural numbers with the
wrap-around written out as `% 2 ^ 64`, and a `(value, error)` result is a pair
whose second component is `none` for a `nil` error. A carrier is the list of
its key/value entries in the order `ForeachKey` visits them; `Set` overwrites.
The standard-library functions follow the current Go sources; the Unicode
case table behind `strings.ToLower` is a parameter of `Extract`.
-/

namespace B3

set_option maxRecDepth 100000

/-! ## Bytes and strings -/

/-- A Go `byte`. -/
abbrev Byte := Fin 256

/-- A Go `string`: an immutable sequence of bytes. -/
abbrev GoString := List Byte

/-- The conversion `byte(n)`, which keeps the low eight bits. -/
def byte (n : Nat) : Byte := ⟨n % 256, Nat.mod_lt _ (by decide)⟩

/-- The bytes of an ASCII string literal. -/
def ascii (s : String) : GoString := s.toList.map (fun c => byte c.toNat)

/-! ## Errors -/

/-- The two sentinel errors a `*strconv.NumError` can wrap here. -/
inductive NumErrKind
  | ErrSyntax
  | ErrRange
  deriving DecidableEq, Repr

/-- The errors `Inject` and `Extract` can return. -/
inductive Error
  /-- The sentinel `opentracing.ErrInvalidCarrier`. -/
  | ErrInvalidCarrier
  /-- The sentinel `opentracing.ErrSpanContextNotFound`. -/
  | ErrSpanContextNotFound
  /-- A `*strconv.NumError` with its fields `Func`, `Num` and `Err`. -/
  | NumError (Func : GoString) (Num : GoString) (Err : NumErrKind)
  deriving DecidableEq, Repr

/-! ## `strconv` -/

/-- The constant `maxUint64`. -/
def maxUint64 : Nat := 2 ^ 64 - 1

/-- The name `fnParseUint` recorded in a `NumError`. -/
def fnParseUint : GoString := ascii "ParseUint"

/-- The helper `syntaxError(fn, str)` of `strconv`. -/
def syntaxError (fn str : GoString) : Error := Error.NumError fn str NumErrKind.ErrSyntax

/-- The helper `rangeError(fn, str)` of `strconv`. -/
def rangeError (fn str : GoString) : Error := Error.NumError fn str NumErrKind.ErrRange

/-- The helper `lower(c)` of `strconv`: `c | ('x' - 'X')`. -/
def lower (c : Byte) : Byte := byte (c.val ||| 32)

/-- The body of the `for _, c := range []byte(s)` loop of `strconv.ParseUint`
for `base = 16` and `bitSize = 64`: `n` is the accumulator, `s0` the whole
input (kept for the error value). `cutoff` is `maxUint64/16 + 1` and `maxVal`
is `1<<64 - 1`. -/
def parseUintLoop (s0 : GoString) : Nat → List Byte → Nat × Option Error
  | n, [] => (n, none)
  | n, c :: cs =>
    if 48 ≤ c.val ∧ c.val ≤ 57 then
      let d := c.val - 48
      if d ≥ 16 then (0, some (syntaxError fnParseUint s0))
      else if n ≥ maxUint64 / 16 + 1 then (maxUint64, some (rangeError fnParseUint s0))
      else
        let n16 := (n * 16) % 2 ^ 64
        let n1 := (n16 + d) % 2 ^ 64
        if n1 < n16 ∨ n1 > maxUint64 then (maxUint64, some (rangeError fnParseUint s0))
        else parseUintLoop s0 n1 cs
    else if 97 ≤ (lower c).val ∧ (lower c).val ≤ 122 then
      let d := (lower c).val - 97 + 10
      if d ≥ 16 then (0, some (syntaxError fnParseUint s0))
      else if n ≥ maxUint64 / 16 + 1 then (maxUint64, some (rangeError fnParseUint s0))
      else
        let n16 := (n * 16) % 2 ^ 64
        let n1 := (n16 + d) % 2 ^ 64
        if n1 < n16 ∨ n1 > maxUint64 then (maxUint64, some (rangeError fnParseUint s0))
        else parseUintLoop s0 n1 cs
    else (0, some (syntaxError fnParseUint s0))

/-- The call `strconv.ParseUint(s, 16, 64)`: the parsed value and the error. -/
def ParseUint (s : GoString) : Nat × Option Error :=
  if s = [] then (0, some (syntaxError fnParseUint s))
  else parseUintLoop s 0 s

/-- The digit table `digits` of `strconv`, indexed below 16. -/
def digit (d : Nat) : Byte := if d < 10 then byte (48 + d) else byte (97 + (d - 10))

/-- The power-of-two branch of `formatBits` for `base = 16`: while `u >= 16`
a digit of `u & 15` is stored in front and `u` is shifted right by four; the
last digit is `u` itself. The buffer of `formatBits` has 65 bytes, so a
`uint64` needs at most 16 rounds, which `fuel` counts. -/
def formatBits16 : Nat → Nat → List Byte → List Byte
  | 0, _, a => a
  | fuel + 1, u, a =>
    if u ≥ 16 then formatBits16 fuel (u / 16) (digit (u % 16) :: a)
    else digit u :: a

/-- The call `strconv.FormatUint(i, 16)` on a `uint64`. -/
def FormatUint (i : Nat) : GoString := formatBits16 16 i []

/-! ## `net/url` -/

/-- The predicate `shouldEscape(c, encodeQueryComponent)` of `net/url`: the
unreserved characters (letters, digits, `-`, `_`, `.`, `~`) are kept, and in
a query component every other byte is escaped. -/
def shouldEscape (c : Byte) : Bool :=
  if (97 ≤ c.val ∧ c.val ≤ 122) ∨ (65 ≤ c.val ∧ c.val ≤ 90) ∨ (48 ≤ c.val ∧ c.val ≤ 57) then false
  else if c.val = 45 ∨ c.val = 95 ∨ c.val = 46 ∨ c.val = 126 then false
  else true

/-- The table `upperhex` (`"0123456789ABCDEF"`), indexed below 16. -/
def upperhex (d : Nat) : Byte := if d < 10 then byte (48 + d) else byte (65 + (d - 10))

/-- What the last loop of `escape` writes for one byte: `+` for a space,
`%XX` for a byte that must be escaped, the byte itself otherwise. -/
def escapeByte (c : Byte) : List Byte :=
  if c.val = 32 then [byte 43]
  else if shouldEscape c then [byte 37, upperhex (c.val >>> 4), upperhex (c.val &&& 15)]
  else [c]

/-- The function `escape(s, encodeQueryComponent)` of `net/url`, with its
two early exits: nothing to escape, and only spaces to replace. -/
def escape (s : GoString) : GoString :=
  let spaceCount := s.countP (fun c => shouldEscape c && decide (c.val = 32))
  let hexCount := s.countP (fun c => shouldEscape c && !decide (c.val = 32))
  if spaceCount = 0 ∧ hexCount = 0 then s
  else if hexCount = 0 then s.map (fun c => if c.val = 32 then byte 43 else c)
  else s.flatMap escapeByte

/-- The call `url.QueryEscape(s)`. -/
def QueryEscape (s : GoString) : GoString := escape s

/-- The helper `ishex` of `net/url`. -/
def ishex (c : Byte) : Bool :=
  (48 ≤ c.val ∧ c.val ≤ 57) ∨ (97 ≤ c.val ∧ c.val ≤ 102) ∨ (65 ≤ c.val ∧ c.val ≤ 70)

/-- The helper `unhex` of `net/url`. -/
def unhex (c : Byte) : Byte :=
  if 48 ≤ c.val ∧ c.val ≤ 57 then byte (c.val - 48)
  else if 97 ≤ c.val ∧ c.val ≤ 102 then byte (c.val - 97 + 10)
  else if 65 ≤ c.val ∧ c.val ≤ 70 then byte (c.val - 65 + 10)
  else byte 0

/-- The first loop of `unescape(s, encodeQueryComponent)`: it counts the `%`
escapes and notes a `+`; a `%` that is not followed by two hex digits ends
it with an `EscapeError` holding at most three bytes from the `%` on. -/
def unescapeScan : List Byte → Except GoString (Nat × Bool)
  | [] => Except.ok (0, false)
  | c :: rest =>
    if c.val = 37 then
      match rest with
      | a :: b :: rest2 =>
        if ishex a && ishex b then
          match unescapeScan rest2 with
          | Except.ok (n, hasPlus) => Except.ok (n + 1, hasPlus)
          | Except.error e => Except.error e
        else Except.error ((c :: rest).take 3)
      | _ => Except.error ((c :: rest).take 3)
    else if c.val = 43 then
      match unescapeScan rest with
      | Except.ok (n, _) => Except.ok (n, true)
      | Except.error e => Except.error e
    else unescapeScan rest

/-- The second loop of `unescape(s, encodeQueryComponent)`, run on a string
that passed the first: `%XY` becomes the byte `unhex(X)<<4 | unhex(Y)`, `+`
becomes a space. -/
def unescapeBuild : List Byte → List Byte
  | [] => []
  | c :: rest =>
    if c.val = 37 then
      match rest with
      | a :: b :: rest2 =>
        byte (((unhex a).val <<< 4) % 256 ||| (unhex b).val) :: unescapeBuild rest2
      | _ => []
    else if c.val = 43 then byte 32 :: unescapeBuild rest
    else c :: unescapeBuild rest

/-- The call `url.QueryUnescape(s)`: the string and the error, which is an
`EscapeError` or `nil`. -/
def QueryUnescape (s : GoString) : GoString × Option GoString :=
  match unescapeScan s with
  | Except.error e => ([], some e)
  | Except.ok (n, hasPlus) =>
    if n = 0 ∧ hasPlus = false then (s, none)
    else (unescapeBuild s, none)

/-! ## `unicode/utf8`, `unicode` and `strings.ToLower` -/

/-- The constant `utf8.RuneError`. -/
def RuneError : Nat := 0xFFFD

/-- The constant `utf8.MaxRune`. -/
def MaxRune : Nat := 0x10FFFF

/-- The function `utf8.DecodeRuneInString`: the rune and its width in bytes.
The table `first` and the accept ranges are written out as comparisons:
`0x00..0x7F` is ASCII, `0xC2..0xDF` starts two bytes, `0xE0..0xEF` three and
`0xF0..0xF4` four, and the second byte is held to `0xA0..0xBF` after `0xE0`,
`0x80..0x9F` after `0xED`, `0x90..0xBF` after `0xF0`, `0x80..0x8F` after
`0xF4` and `0x80..0xBF` otherwise. Anything else is `(RuneError, 1)`. -/
def DecodeRuneInString (s : GoString) : Nat × Nat :=
  match s with
  | [] => (RuneError, 0)
  | s0 :: t =>
    if s0.val < 0x80 then (s0.val, 1)
    else if s0.val < 0xC2 ∨ 0xF4 < s0.val then (RuneError, 1)
    else
      let sz := if s0.val < 0xE0 then 2 else if s0.val < 0xF0 then 3 else 4
      let lo := if s0.val = 0xE0 then 0xA0 else if s0.val = 0xF0 then 0x90 else 0x80
      let hi := if s0.val = 0xED then 0x9F else if s0.val = 0xF4 then 0x8F else 0xBF
      if s.length < sz then (RuneError, 1)
      else
        match t with
        | [] => (RuneError, 1)
        | s1 :: t1 =>
          if s1.val < lo ∨ hi < s1.val then (RuneError, 1)
          else if sz ≤ 2 then ((s0.val &&& 0x1F) <<< 6 ||| (s1.val &&& 0x3F), 2)
          else
            match t1 with
            | [] => (RuneError, 1)
            | s2 :: t2 =>
              if s2.val < 0x80 ∨ 0xBF < s2.val then (RuneError, 1)
              else if sz ≤ 3 then
                ((s0.val &&& 0x0F) <<< 12 ||| (s1.val &&& 0x3F) <<< 6 ||| (s2.val &&& 0x3F), 3)
              else
                match t2 with
                | [] => (RuneError, 1)
                | s3 :: _ =>
                  if s3.val < 0x80 ∨ 0xBF < s3.val then (RuneError, 1)
                  else
                    ((s0.val &&& 0x07) <<< 18 ||| (s1.val &&& 0x3F) <<< 12
                      ||| (s2.val &&& 0x3F) <<< 6 ||| (s3.val &&& 0x3F), 4)

/-- The function `utf8.AppendRune` on an empty buffer: the UTF-8 encoding of
`r`, which for a surrogate or a value above `MaxRune` is that of
`RuneError`. -/
def AppendRune (r : Nat) : List Byte :=
  if r ≤ 0x7F then [byte r]
  else if r ≤ 0x7FF then [byte (0xC0 ||| (r >>> 6)), byte (0x80 ||| (r &&& 0x3F))]
  else if r > MaxRune ∨ (0xD800 ≤ r ∧ r ≤ 0xDFFF) then
    [byte (0xE0 ||| (RuneError >>> 12)), byte (0x80 ||| ((RuneError >>> 6) &&& 0x3F)),
      byte (0x80 ||| (RuneError &&& 0x3F))]
  else if r ≤ 0xFFFF then
    [byte (0xE0 ||| (r >>> 12)), byte (0x80 ||| ((r >>> 6) &&& 0x3F)), byte (0x80 ||| (r &&& 0x3F))]
  else
    [byte (0xF0 ||| (r >>> 18)), byte (0x80 ||| ((r >>> 12) &&& 0x3F)),
      byte (0x80 ||| ((r >>> 6) &&& 0x3F)), byte (0x80 ||| (r &&& 0x3F))]

/-- The function `unicode.ToLower` on a rune. Its ASCII branch is code; above
`MaxASCII` it is `unicode.To(unicode.LowerCase, r)`, a lookup in the table
`unicode.CaseRanges`, which is taken as the parameter `caseTable`. -/
def unicodeToLower (caseTable : Nat → Nat) (r : Nat) : Nat :=
  if r ≤ 0x7F then
    if 65 ≤ r ∧ r ≤ 90 then r + 32 else r
  else caseTable r

/-- The call `strings.Map(mapping, s)` for a mapping that never returns a
negative rune: the runes of `s` are read as a `range` loop reads them (an
invalid byte is one `RuneError`) and the encoding of each mapped rune is
written. Every round consumes at least one byte, so `fuel = len(s)` rounds
reach the end. -/
def mapRunes (mapping : Nat → Nat) : Nat → GoString → GoString
  | 0, _ => []
  | fuel + 1, s =>
    match s with
    | [] => []
    | _ :: _ =>
      let cw := DecodeRuneInString s
      AppendRune (mapping cw.1) ++ mapRunes mapping fuel (s.drop cw.2)

/-- The function `strings.ToLower`: an ASCII-only string has its bytes
`A..Z` moved to `a..z` (and is returned as it is when it has none); any
other string goes through `Map(unicode.ToLower, s)`. -/
def ToLower (caseTable : Nat → Nat) (s : GoString) : GoString :=
  let isASCII := s.all (fun c => decide (c.val < 0x80))
  let hasUpper := s.any (fun c => decide (65 ≤ c.val ∧ c.val ≤ 90))
  if isASCII then
    if !hasUpper then s
    else s.map (fun c => if 65 ≤ c.val ∧ c.val ≤ 90 then byte (c.val + 32) else c)
  else mapRunes (unicodeToLower caseTable) s.length s

/-! ## Carriers -/

/-- The entries of a text-map carrier, in the order `ForeachKey` visits
them. -/
abbrev TextMap := List (GoString × GoString)

/-- The method `Set(key, val)` of a `TextMapWriter`: an entry under `key` is
overwritten, a new key is added. -/
def TextMap.Set (m : TextMap) (key val : GoString) : TextMap :=
  if m.any (fun kv => decide (kv.1 = key)) then
    m.map (fun kv => if kv.1 = key then (key, val) else kv)
  else m ++ [(key, val)]

/-- The value a text map holds under `key`, if any. -/
def TextMap.Get (m : TextMap) (key : GoString) : Option GoString :=
  (m.find? (fun kv => decide (kv.1 = key))).map (fun kv => kv.2)

/-- The method `ForeachKey(handler)` of a `TextMapReader`: the handler is
called on every entry in turn and the first error it returns ends the
iteration. The variables the handler closes over are the state `σ`. -/
def TextMap.ForeachKey {σ : Type} (handler : σ → GoString → GoString → σ × Option Error) :
    TextMap → σ → σ × Option Error
  | [], st => (st, none)
  | (k, v) :: rest, st =>
    match handler st k v with
    | (st1, some err) => (st1, some err)
    | (st1, none) => TextMap.ForeachKey handler rest st1

/-- The `interface{}` value handed to `Inject` and `Extract`: whether its
dynamic type implements `opentracing.TextMapWriter` and
`opentracing.TextMapReader`, and the entries it holds. -/
structure AbstractCarrier where
  isTextMapWriter : Bool
  isTextMapReader : Bool
  entries : TextMap
  deriving DecidableEq, Repr

/-! ## The propagator -/

/-- A `jaeger.SpanContext` as this codec sees it: the three `uint64` ids and
the sampled bit of its flags (what `TraceID()`, `SpanID()`, `ParentID()` and
`IsSampled()` return); no baggage. -/
structure SpanContext where
  traceID : Nat
  spanID : Nat
  parentID : Nat
  sampled : Bool
  deriving DecidableEq, Repr

/-- The call `jaeger.NewSpanContext(traceID, spanID, parentID, sampled, nil)`. -/
def NewSpanContext (traceID spanID parentID : Nat) (sampled : Bool) : SpanContext :=
  { traceID := traceID, spanID := spanID, parentID := parentID, sampled := sampled }

/-- The struct `textMapPropagator`; its `tracer` field is never read. -/
structure textMapPropagator where
  encodeValue : GoString → GoString
  decodeValue : GoString → GoString

/-- The constructor `newTextMapPropagator`: both transforms return their
argument. -/
def newTextMapPropagator : textMapPropagator :=
  { encodeValue := fun val => val
    decodeValue := fun val => val }

/-- The constructor `newHTTPHeaderPropagator`: values are query-escaped on
the way out; on the way in they are unescaped, and a value that does not
unescape is passed on as it is. -/
def newHTTPHeaderPropagator : textMapPropagator :=
  { encodeValue := fun val => QueryEscape val
    decodeValue := fun val =>
      match QueryUnescape val with
      | (v, none) => v
      | (_, some _) => val }

/-- The key `"x-b3-traceid"`. -/
def keyTraceID : GoString := ascii "x-b3-traceid"

/-- The key `"x-b3-parentspanid"`. -/
def keyParentSpanID : GoString := ascii "x-b3-parentspanid"

/-- The key `"x-b3-spanid"`. -/
def keySpanID : GoString := ascii "x-b3-spanid"

/-- The key `"x-b3-sampled"`. -/
def keySampled : GoString := ascii "x-b3-sampled"

/-- The method `Inject`: the error it returns and the carrier afterwards. -/
def textMapPropagator.Inject (p : textMapPropagator) (sc : SpanContext)
    (abstractCarrier : AbstractCarrier) : Option Error × AbstractCarrier :=
  if !abstractCarrier.isTextMapWriter then (some Error.ErrInvalidCarrier, abstractCarrier)
  else
    let m := abstractCarrier.entries
    let m := m.Set keyTraceID (p.encodeValue (FormatUint sc.traceID))
    let m := m.Set keyParentSpanID (p.encodeValue (FormatUint sc.parentID))
    let m := m.Set keySpanID (p.encodeValue (FormatUint sc.spanID))
    let m := if sc.sampled then m.Set keySampled (p.encodeValue (ascii "1")) else m
    (none, { abstractCarrier with entries := m })

/-- The variables of `Extract` that its `ForeachKey` closure assigns. -/
structure ExtractVars where
  traceID : Nat
  spanID : Nat
  parentID : Nat
  sampled : Bool
  deriving DecidableEq, Repr

/-- The closure `Extract` passes to `ForeachKey`: the variables after the
call and the error returned. A `ParseUint` result is assigned to its variable
whether or not it comes with an error. -/
def textMapPropagator.extractHandler (caseTable : Nat → Nat) (p : textMapPropagator)
    (vars : ExtractVars) (rawKey value : GoString) : ExtractVars × Option Error :=
  let key := ToLower caseTable rawKey
  if key = keyTraceID then
    let r := ParseUint (p.decodeValue value)
    ({ vars with traceID := r.1 }, r.2)
  else if key = keyParentSpanID then
    let r := ParseUint (p.decodeValue value)
    ({ vars with parentID := r.1 }, r.2)
  else if key = keySpanID then
    let r := ParseUint (p.decodeValue value)
    ({ vars with spanID := r.1 }, r.2)
  else if key = keySampled then
    ({ vars with sampled := true }, none)
  else (vars, none)

/-- The method `Extract`: the span context, or the error. `caseTable` is the
Unicode case table behind `strings.ToLower`. -/
def textMapPropagator.Extract (caseTable : Nat → Nat) (p : textMapPropagator)
    (abstractCarrier : AbstractCarrier) : Except Error SpanContext :=
  if !abstractCarrier.isTextMapReader then Except.error Error.ErrInvalidCarrier
  else
    match abstractCarrier.entries.ForeachKey (p.extractHandler caseTable)
        { traceID := 0, spanID := 0, parentID := 0, sampled := false } with
    | (_, some err) => Except.error err
    | (vars, none) =>
      if vars.traceID = 0 then Except.error Error.ErrSpanContextNotFound
      else Except.ok (NewSpanContext vars.traceID vars.spanID vars.parentID vars.sampled)

/-! ## Reference notions the theorems compare the code with -/

/-- The value of one hexadecimal digit, in either letter case. -/
def hexDigitVal (c : Byte) : Option Nat :=
  if 48 ≤ c.val ∧ c.val ≤ 57 then some (c.val - 48)
  else if 97 ≤ c.val ∧ c.val ≤ 102 then some (c.val - 87)
  else if 65 ≤ c.val ∧ c.val ≤ 70 then some (c.val - 55)
  else none

/-- The number a string of hexadecimal digits denotes, most significant
digit first. -/
def hexValue (s : GoString) : Nat :=
  s.foldl (fun acc c => acc * 16 + (hexDigitVal c).getD 0) 0

/-- A valid base-16 unsigned 64-bit numeral: at least one character, every
character a hexadecimal digit, and a value below `2 ^ 64`. -/
def IsHexUint64 (s : GoString) : Prop :=
  s ≠ [] ∧ (∀ c ∈ s, (hexDigitVal c).isSome = true) ∧ hexValue s < 2 ^ 64

instance (s : GoString) : Decidable (IsHexUint64 s) :=
  inferInstanceAs (Decidable
    (s ≠ [] ∧ (∀ c ∈ s, (hexDigitVal c).isSome = true) ∧ hexValue s < 2 ^ 64))

/-- The lower-case base-16 numeral of `n` with no leading zeros: digits
`0..9` and `a..f` only, denoting `n`, and starting with `0` only when it is
the one-character string `"0"`. -/
def IsLowerHexNumeral (s : GoString) (n : Nat) : Prop :=
  s ≠ [] ∧ (∀ c ∈ s, (48 ≤ c.val ∧ c.val ≤ 57) ∨ (97 ≤ c.val ∧ c.val ≤ 102)) ∧
    hexValue s = n ∧ (s.head? = some (byte 48) → s = [byte 48])

instance (s : GoString) (n : Nat) : Decidable (IsLowerHexNumeral s n) :=
  inferInstanceAs (Decidable
    (s ≠ [] ∧ (∀ c ∈ s, (48 ≤ c.val ∧ c.val ≤ 57) ∨ (97 ≤ c.val ∧ c.val ≤ 102)) ∧
      hexValue s = n ∧ (s.head? = some (byte 48) → s = [byte 48])))

/-- One of the three keys whose value `Extract` parses as a number. -/
def IsNumericKey (key : GoString) : Prop :=
  key = keyTraceID ∨ key = keyParentSpanID ∨ key = keySpanID

instance (key : GoString) : Decidable (IsNumericKey key) :=
  inferInstanceAs (Decidable (key = keyTraceID ∨ key = keyParentSpanID ∨ key = keySpanID))

/-- One of the four B3 keys. -/
def IsB3Key (key : GoString) : Prop :=
  key = keyTraceID ∨ key = keyParentSpanID ∨ key = keySpanID ∨ key = keySampled

instance (key : GoString) : Decidable (IsB3Key key) :=
  inferInstanceAs (Decidable
    (key = keyTraceID ∨ key = keyParentSpanID ∨ key = keySpanID ∨ key = keySampled))

/-- No entry of the carrier fails to parse: every value under a key that
lower-cases to a numeric B3 key decodes to something `ParseUint` accepts. -/
def NoParseError (caseTable : Nat → Nat) (p : textMapPropagator) (m : TextMap) : Prop :=
  ∀ kv ∈ m, IsNumericKey (ToLower caseTable kv.1) → (ParseUint (p.decodeValue kv.2)).2 = none

instance (caseTable : Nat → Nat) (p : textMapPropagator) (m : TextMap) :
    Decidable (NoParseError caseTable p m) :=
  inferInstanceAs (Decidable (∀ kv ∈ m,
    IsNumericKey (ToLower caseTable kv.1) → (ParseUint (p.decodeValue kv.2)).2 = none))

/-- The parsed value of the last entry, in iteration order, whose lower-cased
key is `key`; `none` when there is no such entry. -/
def lastValue (caseTable : Nat → Nat) (p : textMapPropagator) (key : GoString) :
    TextMap → Option Nat
  | [] => none
  | (k, v) :: rest =>
    match lastValue caseTable p key rest with
    | some n => some n
    | none => if ToLower caseTable k = key then some (ParseUint (p.decodeValue v)).1 else none

/-- Whether some entry of the carrier has a key that lower-cases to `key`. -/
def hasKey (caseTable : Nat → Nat) (key : GoString) (m : TextMap) : Bool :=
  m.any (fun kv => decide (ToLower caseTable kv.1 = key))

/-- A Unicode scalar value: at most `MaxRune` and not a surrogate. -/
def ValidRune (r : Nat) : Prop := r ≤ MaxRune ∧ ¬ (0xD800 ≤ r ∧ r ≤ 0xDFFF)

instance (r : Nat) : Decidable (ValidRune r) :=
  inferInstanceAs (Decidable (r ≤ MaxRune ∧ ¬ (0xD800 ≤ r ∧ r ≤ 0xDFFF)))

/-- What is assumed of the table `unicode.CaseRanges`, which `unicode.ToLower`
consults above `MaxASCII`: the lower case of a Unicode scalar value is a
Unicode scalar value, and it is its own lower case. -/
def LowerCaseTable (caseTable : Nat → Nat) : Prop :=
  ∀ r, 0x7F < r → ValidRune r →
    ValidRune (caseTable r) ∧ unicodeToLower caseTable (caseTable r) = caseTable r

/-- A few rows of `unicode.CaseRanges`: `U+00C0..U+00D6` and `U+00D8..U+00DE`
move up by 32, `U+0130` goes to `i` and `U+212A` (the Kelvin sign) to `k`;
every other rune above `MaxASCII` is left alone. -/
def caseRangesExcerpt (r : Nat) : Nat :=
  if (0xC0 ≤ r ∧ r ≤ 0xD6) ∨ (0xD8 ≤ r ∧ r ≤ 0xDE) then r + 32
  else if r = 0x130 then 0x69
  else if r = 0x212A then 0x6B
  else r

/-- The last entry, in iteration order, whose lower-cased key is `key`. -/
def lastEntry (caseTable : Nat → Nat) (key : GoString) (m : TextMap) :
    Option (GoString × GoString) :=
  (m.filter (fun kv => decide (ToLower caseTable kv.1 = key))).getLast?

/-- The number the last entry under `key` denotes once decoded, or `0` when
there is no entry under `key`. -/
def accumulated (caseTable : Nat → Nat) (p : textMapPropagator) (key : GoString)
    (m : TextMap) : Nat :=
  match lastEntry caseTable key m with
  | some kv => hexValue (p.decodeValue kv.2)
  | none => 0

/-- The strings an error value holds: `Func` and `Num` for a `NumError`,
none for the two sentinels. -/
def Error.fields : Error → List GoString
  | Error.NumError fn num _ => [fn, num]
  | _ => []

/-- Whether the string has a `%` that is not followed by two hexadecimal
digits. -/
def hasBadEscape : List Byte → Bool
  | [] => false
  | c :: rest =>
    (decide (c.val = 37) &&
      !(match rest with
        | a :: b :: _ => ishex a && ishex b
        | _ => false)) || hasBadEscape rest

/-! ## Theorems -/

/-! ### `strconv` -/

theorem byte_digit_cases : ∀ c : Byte,
    (48 ≤ c.val ∧ c.val ≤ 57 → hexDigitVal c = some (c.val - 48) ∧ ¬ (c.val - 48 ≥ 16)) ∧
    (¬ (48 ≤ c.val ∧ c.val ≤ 57) → 97 ≤ (lower c).val ∧ (lower c).val ≤ 122 →
      (((lower c).val - 97 + 10 ≥ 16) ∧ hexDigitVal c = none) ∨
      (¬ ((lower c).val - 97 + 10 ≥ 16) ∧ hexDigitVal c = some ((lower c).val - 97 + 10))) ∧
    (¬ (48 ≤ c.val ∧ c.val ≤ 57) → ¬ (97 ≤ (lower c).val ∧ (lower c).val ≤ 122) →
      hexDigitVal c = none) := by
  decide

theorem hexDigitVal_lt (c : Byte) (d : Nat) (h : hexDigitVal c = some d) : d < 16 := by
  unfold hexDigitVal at h
  split_ifs at h <;> simp at h <;> omega

/-- One round of the `ParseUint` loop, in terms of the digit value. -/
theorem parseUintLoop_cons (s0 : GoString) (n : Nat) (c : Byte) (cs : List Byte) :
    parseUintLoop s0 n (c :: cs) =
      match hexDigitVal c with
      | none => (0, some (syntaxError fnParseUint s0))
      | some d =>
        if n ≥ 2 ^ 60 then (maxUint64, some (rangeError fnParseUint s0))
        else parseUintLoop s0 (n * 16 + d) cs := by
  have hc := byte_digit_cases c
  obtain ⟨h1, h2, h3⟩ := hc
  have hcut : maxUint64 / 16 + 1 = 2 ^ 60 := by decide
  rw [parseUintLoop]
  by_cases hd : 48 ≤ c.val ∧ c.val ≤ 57
  · obtain ⟨hv, hlt⟩ := h1 hd
    rw [if_pos hd, hv]
    simp only [hcut]
    rw [if_neg hlt]
    by_cases hn : n ≥ 2 ^ 60
    · simp only [if_pos hn]
    · have e1 : (n * 16) % 2 ^ 64 = n * 16 := Nat.mod_eq_of_lt (by omega)
      have e2 : (n * 16 + (c.val - 48)) % 2 ^ 64 = n * 16 + (c.val - 48) :=
        Nat.mod_eq_of_lt (by omega)
      have e3 : ¬ (n * 16 + (c.val - 48) < n * 16 ∨ n * 16 + (c.val - 48) > maxUint64) := by
        unfold maxUint64; omega
      simp only [e1, e2, if_neg hn, if_neg e3]
  · rw [if_neg hd]
    by_cases hl : 97 ≤ (lower c).val ∧ (lower c).val ≤ 122
    · rw [if_pos hl]
      rcases h2 hd hl with ⟨hge, hv⟩ | ⟨hlt, hv⟩
      · rw [hv]; simp only [hcut]; rw [if_pos hge]
      · rw [hv]
        simp only [hcut]
        rw [if_neg hlt]
        by_cases hn : n ≥ 2 ^ 60
        · simp only [if_pos hn]
        · have e1 : (n * 16) % 2 ^ 64 = n * 16 := Nat.mod_eq_of_lt (by omega)
          have e2 : (n * 16 + ((lower c).val - 97 + 10)) % 2 ^ 64
              = n * 16 + ((lower c).val - 97 + 10) := Nat.mod_eq_of_lt (by omega)
          have e3 : ¬ (n * 16 + ((lower c).val - 97 + 10) < n * 16
              ∨ n * 16 + ((lower c).val - 97 + 10) > maxUint64) := by
            unfold maxUint64; omega
          simp only [e1, e2, if_neg hn, if_neg e3]
    · rw [if_neg hl, h3 hd hl]

theorem foldl_hex_ge (cs : List Byte) (n : Nat) :
    n ≤ cs.foldl (fun acc c => acc * 16 + (hexDigitVal c).getD 0) n := by
  induction cs generalizing n with
  | nil => simp
  | cons c cs ih =>
    simp only [List.foldl_cons]
    exact le_trans (by omega) (ih _)

/-- The loop succeeds on hexadecimal digits whose value fits 64 bits. -/
theorem parseUintLoop_ok (s0 : GoString) (cs : List Byte) (n : Nat)
    (hd : ∀ c ∈ cs, (hexDigitVal c).isSome = true)
    (hv : cs.foldl (fun acc c => acc * 16 + (hexDigitVal c).getD 0) n < 2 ^ 64) :
    parseUintLoop s0 n cs = (cs.foldl (fun acc c => acc * 16 + (hexDigitVal c).getD 0) n, none) := by
  induction cs generalizing n with
  | nil => simp [parseUintLoop]
  | cons c cs ih =>
    rw [parseUintLoop_cons]
    have hc := hd c (List.mem_cons_self _ _)
    obtain ⟨d, hcd⟩ := Option.isSome_iff_exists.mp hc
    simp only [List.foldl_cons, hcd, Option.getD_some] at hv ⊢
    have hge := foldl_hex_ge cs (n * 16 + d)
    have hn : ¬ n ≥ 2 ^ 60 := by omega
    rw [if_neg hn]
    exact ih _ (fun c hc => hd c (List.mem_cons_of_mem _ hc)) hv

/-- When the loop returns no error, the input was hexadecimal digits whose
value fits 64 bits, and that value is returned. -/
theorem parseUintLoop_none (s0 : GoString) (cs : List Byte) (n v : Nat)
    (h : parseUintLoop s0 n cs = (v, none)) :
    (∀ c ∈ cs, (hexDigitVal c).isSome = true) ∧
      (n < 2 ^ 64 → cs.foldl (fun acc c => acc * 16 + (hexDigitVal c).getD 0) n < 2 ^ 64) ∧
      v = cs.foldl (fun acc c => acc * 16 + (hexDigitVal c).getD 0) n := by
  induction cs generalizing n with
  | nil =>
    simp only [parseUintLoop, Prod.mk.injEq, and_true] at h
    simp [h]
  | cons c cs ih =>
    rw [parseUintLoop_cons] at h
    cases hcd : hexDigitVal c with
    | none => simp [hcd] at h
    | some d =>
      simp only [hcd] at h
      by_cases hn : n ≥ 2 ^ 60
      · rw [if_pos hn] at h
        simp at h
      · rw [if_neg hn] at h
        obtain ⟨h1, h2, h3⟩ := ih _ h
        have hdlt := hexDigitVal_lt c d hcd
        refine ⟨?_, ?_, ?_⟩
        · intro x hx
          rcases List.mem_cons.mp hx with rfl | hx
          · simp [hcd]
          · exact h1 x hx
        · intro _
          simp only [List.foldl_cons, hcd, Option.getD_some]
          exact h2 (by omega)
        · simp only [List.foldl_cons, hcd, Option.getD_some]
          exact h3

/-- Every error of the loop is a `NumError` of `ParseUint` on the whole
input. -/
theorem parseUintLoop_err (s0 : GoString) (cs : List Byte) (n : Nat) (e : Error)
    (h : (parseUintLoop s0 n cs).2 = some e) :
    ∃ kind, e = Error.NumError fnParseUint s0 kind := by
  induction cs generalizing n with
  | nil => simp [parseUintLoop] at h
  | cons c cs ih =>
    rw [parseUintLoop_cons] at h
    cases hcd : hexDigitVal c with
    | none =>
      simp only [hcd, Option.some.injEq] at h
      exact ⟨NumErrKind.ErrSyntax, h.symm⟩
    | some d =>
      simp only [hcd] at h
      by_cases hn : n ≥ 2 ^ 60
      · rw [if_pos hn] at h
        simp only [Option.some.injEq] at h
        exact ⟨NumErrKind.ErrRange, h.symm⟩
      · rw [if_neg hn] at h
        exact ih _ h

/-- The call `ParseUint(s, 16, 64)` returns no error exactly on the valid
base-16 unsigned 64-bit numerals. -/
theorem ParseUint_none_iff (s : GoString) : (ParseUint s).2 = none ↔ IsHexUint64 s := by
  unfold ParseUint IsHexUint64 hexValue
  constructor
  · intro h
    by_cases hs : s = []
    · simp [hs] at h
    · rw [if_neg hs] at h
      have hp : parseUintLoop s 0 s = ((parseUintLoop s 0 s).1, none) := by
        rw [← h]
      obtain ⟨h1, h2, _⟩ := parseUintLoop_none s s 0 _ hp
      exact ⟨hs, h1, h2 (by decide)⟩
  · rintro ⟨hs, h1, h2⟩
    rw [if_neg hs, parseUintLoop_ok s s 0 h1 h2]

/-- On a valid numeral `ParseUint` returns its value. -/
theorem ParseUint_of_valid (s : GoString) (h : IsHexUint64 s) :
    ParseUint s = (hexValue s, none) := by
  obtain ⟨hs, h1, h2⟩ := h
  unfold ParseUint
  rw [if_neg hs]
  exact parseUintLoop_ok s s 0 h1 h2

/-- Every error of `ParseUint` is a `NumError` naming `ParseUint` and holding
the string that was parsed. -/
theorem ParseUint_err (s : GoString) (e : Error) (h : (ParseUint s).2 = some e) :
    ∃ kind, e = Error.NumError fnParseUint s kind := by
  unfold ParseUint at h
  by_cases hs : s = []
  · rw [if_pos hs] at h
    simp only [Option.some.injEq] at h
    exact ⟨NumErrKind.ErrSyntax, h.symm⟩
  · rw [if_neg hs] at h
    exact parseUintLoop_err s s 0 e h

theorem digit_cases : ∀ d : Fin 16,
    hexDigitVal (digit d.val) = some d.val ∧
    ((48 ≤ (digit d.val).val ∧ (digit d.val).val ≤ 57) ∨
      (97 ≤ (digit d.val).val ∧ (digit d.val).val ≤ 102)) ∧
    (digit d.val = byte 48 → d.val = 0) := by
  decide

theorem digit_spec (d : Nat) (h : d < 16) :
    hexDigitVal (digit d) = some d ∧
    ((48 ≤ (digit d).val ∧ (digit d).val ≤ 57) ∨ (97 ≤ (digit d).val ∧ (digit d).val ≤ 102)) ∧
    (digit d = byte 48 → d = 0) :=
  digit_cases ⟨d, h⟩

theorem hexValue_append_one (ds : List Byte) (c : Byte) :
    hexValue (ds ++ [c]) = hexValue ds * 16 + (hexDigitVal c).getD 0 := by
  simp [hexValue, List.foldl_append]

/-- With enough rounds `formatBits` puts the numeral of `u` in front of the
buffer. -/
theorem formatBits16_spec (fuel u : Nat) (a : List Byte) (h : u < 16 ^ (fuel + 1)) :
    ∃ ds, formatBits16 (fuel + 1) u a = ds ++ a ∧ IsLowerHexNumeral ds u := by
  induction fuel generalizing u a with
  | zero =>
    have hu : ¬ u ≥ 16 := by simpa using h
    obtain ⟨h1, h2, h3⟩ := digit_spec u (by omega)
    refine ⟨[digit u], ?_, ?_, ?_, ?_, ?_⟩
    · simp [formatBits16, hu]
    · simp
    · intro c hc; simp only [List.mem_singleton] at hc; subst hc; exact h2
    · simp [hexValue, h1]
    · intro hh
      simp only [List.head?_cons, Option.some.injEq] at hh
      rw [hh]
  | succ fuel ih =>
    rw [formatBits16]
    by_cases hu : u ≥ 16
    · rw [if_pos hu]
      have hq : u / 16 < 16 ^ (fuel + 1) := by
        rw [Nat.div_lt_iff_lt_mul (by decide)]
        calc u < 16 ^ (fuel + 1 + 1) := h
          _ = 16 ^ (fuel + 1) * 16 := by rw [pow_succ]
      obtain ⟨ds, hds, hne, hdig, hval, hlead⟩ := ih (u / 16) (digit (u % 16) :: a) hq
      obtain ⟨h1, h2, _⟩ := digit_spec (u % 16) (Nat.mod_lt _ (by decide))
      refine ⟨ds ++ [digit (u % 16)], ?_, ?_, ?_, ?_, ?_⟩
      · rw [hds]; simp
      · simp
      · intro c hc
        rcases List.mem_append.mp hc with hc | hc
        · exact hdig c hc
        · simp only [List.mem_singleton] at hc; subst hc; exact h2
      · rw [hexValue_append_one, hval, h1]
        simp only [Option.getD_some]
        omega
      · intro hh
        exfalso
        cases ds with
        | nil => exact hne rfl
        | cons x xs =>
          simp only [List.cons_append, List.head?_cons, Option.some.injEq] at hh
          have := hlead (by simp [hh])
          rw [this] at hval
          have : hexValue [byte 48] = 0 := by decide
          omega
    · rw [if_neg hu]
      obtain ⟨h1, h2, h3⟩ := digit_spec u (by omega)
      refine ⟨[digit u], ?_, ?_, ?_, ?_, ?_⟩
      · simp
      · simp
      · intro c hc; simp only [List.mem_singleton] at hc; subst hc; exact h2
      · simp [hexValue, h1]
      · intro hh
        simp only [List.head?_cons, Option.some.injEq] at hh
        rw [hh]

/-- The call `FormatUint(n, 16)` on a `uint64` is the lower-case numeral of
`n` without leading zeros. -/
theorem FormatUint_spec (n : Nat) (h : n < 2 ^ 64) : IsLowerHexNumeral (FormatUint n) n := by
  obtain ⟨ds, hds, hspec⟩ := formatBits16_spec 15 n [] (by simpa using h)
  unfold FormatUint
  rw [hds, List.append_nil]
  exact hspec

theorem lowerHex_isSome (c : Byte)
    (h : (48 ≤ c.val ∧ c.val ≤ 57) ∨ (97 ≤ c.val ∧ c.val ≤ 102)) :
    (hexDigitVal c).isSome = true := by
  unfold hexDigitVal
  split_ifs <;> first | rfl | omega

theorem IsLowerHexNumeral.valid {s : GoString} {n : Nat} (h : IsLowerHexNumeral s n)
    (hn : n < 2 ^ 64) : IsHexUint64 s :=
  ⟨h.1, fun c hc => lowerHex_isSome c (h.2.1 c hc), by rw [h.2.2.1]; exact hn⟩

/-- Parsing what `FormatUint` wrote gives the number back. -/
theorem ParseUint_FormatUint (n : Nat) (h : n < 2 ^ 64) :
    ParseUint (FormatUint n) = (n, none) := by
  have hs := FormatUint_spec n h
  rw [ParseUint_of_valid _ (hs.valid h), hs.2.2.1]

/-! ### `net/url` -/

theorem unescapeScan_cons (c : Byte) (rest : List Byte) :
    unescapeScan (c :: rest) =
      if c.val = 37 then
        match rest with
        | a :: b :: rest2 =>
          if ishex a && ishex b then
            match unescapeScan rest2 with
            | Except.ok (n, hasPlus) => Except.ok (n + 1, hasPlus)
            | Except.error e => Except.error e
          else Except.error ((c :: rest).take 3)
        | _ => Except.error ((c :: rest).take 3)
      else if c.val = 43 then
        match unescapeScan rest with
        | Except.ok (n, _) => Except.ok (n, true)
        | Except.error e => Except.error e
      else unescapeScan rest := by
  rw [unescapeScan.eq_def]

theorem unescapeBuild_cons (c : Byte) (rest : List Byte) :
    unescapeBuild (c :: rest) =
      if c.val = 37 then
        match rest with
        | a :: b :: rest2 =>
          byte (((unhex a).val <<< 4) % 256 ||| (unhex b).val) :: unescapeBuild rest2
        | _ => []
      else if c.val = 43 then byte 32 :: unescapeBuild rest
      else c :: unescapeBuild rest := by
  rw [unescapeBuild.eq_def]

theorem escape_byte_cases : ∀ c : Byte,
    (shouldEscape c = true → c.val ≠ 32 →
      ishex (upperhex (c.val >>> 4)) = true ∧ ishex (upperhex (c.val &&& 15)) = true ∧
      byte (((unhex (upperhex (c.val >>> 4))).val <<< 4) % 256
        ||| (unhex (upperhex (c.val &&& 15))).val) = c) ∧
    (shouldEscape c = false → c.val ≠ 37 ∧ c.val ≠ 43 ∧ c.val ≠ 32) ∧
    (c.val = 32 → shouldEscape c = true ∧ c = byte 32) := by
  decide

theorem escapeByte_of_not_shouldEscape (c : Byte) (h : shouldEscape c = false) :
    escapeByte c = [c] := by
  have h32 := ((escape_byte_cases c).2.1 h).2.2
  simp [escapeByte, h, h32]

theorem flatMap_escapeByte_of_unreserved (s : GoString)
    (h : ∀ c ∈ s, shouldEscape c = false) : s.flatMap escapeByte = s := by
  induction s with
  | nil => rfl
  | cons c s ih =>
    rw [List.flatMap_cons, escapeByte_of_not_shouldEscape c (h c (List.mem_cons_self _ _)),
      ih (fun x hx => h x (List.mem_cons_of_mem _ hx))]
    rfl

/-- The early exits of `escape` return what its last loop would write. -/
theorem escape_eq_flatMap (s : GoString) : escape s = s.flatMap escapeByte := by
  unfold escape
  simp only
  split_ifs with h1 h2
  · obtain ⟨hs, hh⟩ := h1
    rw [List.countP_eq_zero] at hs hh
    symm
    apply flatMap_escapeByte_of_unreserved
    intro c hc
    have a := hs c hc
    have b := hh c hc
    by_cases h32 : c.val = 32 <;> simp [h32] at a b <;> assumption
  · rw [List.countP_eq_zero] at h2
    clear h1
    induction s with
    | nil => rfl
    | cons c s ih =>
      rw [List.map_cons, List.flatMap_cons, ih (fun x hx => h2 x (List.mem_cons_of_mem _ hx))]
      have b := h2 c (List.mem_cons_self _ _)
      by_cases h32 : c.val = 32
      · simp [escapeByte, h32]
      · simp only [h32, decide_False, Bool.not_false, Bool.and_true, Bool.not_eq_true] at b
        rw [escapeByte_of_not_shouldEscape c b]
        simp [h32]
  · rfl

/-- A string of unreserved bytes is escaped to itself. -/
theorem QueryEscape_of_unreserved (s : GoString) (h : ∀ c ∈ s, shouldEscape c = false) :
    QueryEscape s = s := by
  unfold QueryEscape
  rw [escape_eq_flatMap, flatMap_escapeByte_of_unreserved s h]

theorem unescapeScan_of_unreserved (s : GoString) (h : ∀ c ∈ s, shouldEscape c = false) :
    unescapeScan s = Except.ok (0, false) := by
  induction s with
  | nil => rfl
  | cons c s ih =>
    obtain ⟨h37, h43, _⟩ := (escape_byte_cases c).2.1 (h c (List.mem_cons_self _ _))
    rw [unescapeScan_cons, if_neg h37, if_neg h43]
    exact ih (fun x hx => h x (List.mem_cons_of_mem _ hx))

/-- A string of unreserved bytes is unescaped to itself, without error. -/
theorem QueryUnescape_of_unreserved (s : GoString) (h : ∀ c ∈ s, shouldEscape c = false) :
    QueryUnescape s = (s, none) := by
  unfold QueryUnescape
  rw [unescapeScan_of_unreserved s h]
  simp

theorem unescapeBuild_of_scan_zero (n : Nat) : ∀ t : List Byte, t.length ≤ n →
    unescapeScan t = Except.ok (0, false) → unescapeBuild t = t := by
  induction n with
  | zero =>
    intro t ht _
    have : t = [] := List.length_eq_zero.mp (by omega)
    subst this; rfl
  | succ n ih =>
    intro t ht hscan
    cases t with
    | nil => rfl
    | cons c rest =>
      rw [unescapeScan_cons] at hscan
      by_cases h37 : c.val = 37
      · rw [if_pos h37] at hscan
        exfalso
        split at hscan
        · split_ifs at hscan
          split at hscan <;> simp at hscan
        · simp at hscan
      · rw [if_neg h37] at hscan
        by_cases h43 : c.val = 43
        · rw [if_pos h43] at hscan
          exfalso
          split at hscan <;> simp at hscan
        · rw [if_neg h43] at hscan
          rw [unescapeBuild_cons, if_neg h37, if_neg h43,
            ih rest (by simpa using ht) hscan]

/-- When the first loop of `unescape` finds no error, `QueryUnescape` returns
what the second loop builds, also on the early exit. -/
theorem QueryUnescape_of_scan_ok (t : GoString) (r : Nat × Bool)
    (h : unescapeScan t = Except.ok r) : QueryUnescape t = (unescapeBuild t, none) := by
  unfold QueryUnescape
  rw [h]
  obtain ⟨n, hp⟩ := r
  simp only
  split_ifs with h0
  · obtain ⟨hn, hp⟩ := h0
    subst hn; subst hp
    rw [unescapeBuild_of_scan_zero t.length t (le_refl _) h]
  · rfl

theorem unescapeScan_escapeByte (c : Byte) (rest : List Byte) (r : Nat × Bool)
    (h : unescapeScan rest = Except.ok r) :
    ∃ r2, unescapeScan (escapeByte c ++ rest) = Except.ok r2 := by
  obtain ⟨hA, hB, hC⟩ := escape_byte_cases c
  unfold escapeByte
  by_cases h32 : c.val = 32
  · rw [if_pos h32]
    have e : unescapeScan ([byte 43] ++ rest) = Except.ok (r.1, true) := by
      rw [List.singleton_append, unescapeScan_cons]
      rw [if_neg (by decide), if_pos (by decide), h]
    exact ⟨_, e⟩
  · rw [if_neg h32]
    cases hs : shouldEscape c with
    | true =>
      obtain ⟨x1, x2, _⟩ := hA hs h32
      have e : unescapeScan ([byte 37, upperhex (c.val >>> 4), upperhex (c.val &&& 15)] ++ rest)
          = Except.ok (r.1 + 1, r.2) := by
        simp only [List.cons_append, List.nil_append]
        rw [unescapeScan_cons, if_pos (by decide)]
        simp only [x1, x2, Bool.and_self, if_true, h]
      exact ⟨_, by simpa using e⟩
    | false =>
      obtain ⟨h37, h43, _⟩ := hB hs
      refine ⟨r, ?_⟩
      simp only [Bool.false_eq_true, if_false, List.singleton_append]
      rw [unescapeScan_cons, if_neg h37, if_neg h43, h]

theorem unescapeBuild_escapeByte (c : Byte) (rest : List Byte) :
    unescapeBuild (escapeByte c ++ rest) = c :: unescapeBuild rest := by
  obtain ⟨hA, hB, hC⟩ := escape_byte_cases c
  unfold escapeByte
  by_cases h32 : c.val = 32
  · rw [if_pos h32, List.singleton_append, unescapeBuild_cons, if_neg (by decide), if_pos (by decide)]
    rw [← (hC h32).2]
  · rw [if_neg h32]
    cases hs : shouldEscape c with
    | true =>
      obtain ⟨_, _, x3⟩ := hA hs h32
      simp only [if_true, List.cons_append, List.nil_append]
      rw [unescapeBuild_cons, if_pos (by decide)]
      simp only [x3]
    | false =>
      obtain ⟨h37, h43, _⟩ := hB hs
      simp only [Bool.false_eq_true, if_false, List.singleton_append]
      rw [unescapeBuild_cons, if_neg h37, if_neg h43]

theorem unescape_flatMap_escapeByte (s : GoString) :
    (∃ r, unescapeScan (s.flatMap escapeByte) = Except.ok r) ∧
      unescapeBuild (s.flatMap escapeByte) = s := by
  induction s with
  | nil => exact ⟨⟨(0, false), rfl⟩, rfl⟩
  | cons c s ih =>
    obtain ⟨⟨r, hr⟩, hb⟩ := ih
    rw [List.flatMap_cons]
    exact ⟨unescapeScan_escapeByte c _ r hr, by rw [unescapeBuild_escapeByte, hb]⟩

/-- Unescaping undoes escaping, on every byte string. -/
theorem QueryUnescape_QueryEscape (s : GoString) :
    QueryUnescape (QueryEscape s) = (s, none) := by
  unfold QueryEscape
  rw [escape_eq_flatMap]
  obtain ⟨⟨r, hr⟩, hb⟩ := unescape_flatMap_escapeByte s
  rw [QueryUnescape_of_scan_ok _ r hr, hb]

/-! ### `ForeachKey` and the closure of `Extract` -/

theorem keys_distinct :
    keyTraceID ≠ keyParentSpanID ∧ keyTraceID ≠ keySpanID ∧ keyTraceID ≠ keySampled ∧
      keyParentSpanID ≠ keySpanID ∧ keyParentSpanID ≠ keySampled ∧ keySpanID ≠ keySampled := by
  decide

theorem ForeachKey_nil {σ : Type} (h : σ → GoString → GoString → σ × Option Error) (st : σ) :
    TextMap.ForeachKey h [] st = (st, none) := rfl

theorem ForeachKey_cons {σ : Type} (h : σ → GoString → GoString → σ × Option Error)
    (kv : GoString × GoString) (rest : TextMap) (st : σ) :
    TextMap.ForeachKey h (kv :: rest) st =
      match (h st kv.1 kv.2).2 with
      | some err => ((h st kv.1 kv.2).1, some err)
      | none => TextMap.ForeachKey h rest (h st kv.1 kv.2).1 := by
  obtain ⟨k, v⟩ := kv
  rw [TextMap.ForeachKey]
  rcases hh : h st k v with ⟨st1, _ | e⟩ <;> simp

theorem ForeachKey_append {σ : Type} (h : σ → GoString → GoString → σ × Option Error)
    (a b : TextMap) (st : σ) :
    TextMap.ForeachKey h (a ++ b) st =
      match (TextMap.ForeachKey h a st).2 with
      | some err => ((TextMap.ForeachKey h a st).1, some err)
      | none => TextMap.ForeachKey h b (TextMap.ForeachKey h a st).1 := by
  induction a generalizing st with
  | nil => simp [ForeachKey_nil]
  | cons kv a ih =>
    rw [List.cons_append, ForeachKey_cons, ForeachKey_cons]
    cases hh : (h st kv.1 kv.2).2 with
    | some e => simp
    | none => simp only; rw [ih]

/-- What the closure does, by the lower-cased key. -/
theorem extractHandler_eq (caseTable : Nat → Nat) (p : textMapPropagator) (vars : ExtractVars)
    (k v : GoString) :
    (ToLower caseTable k = keyTraceID →
      p.extractHandler caseTable vars k v =
        ({ vars with traceID := (ParseUint (p.decodeValue v)).1 },
          (ParseUint (p.decodeValue v)).2)) ∧
    (ToLower caseTable k = keyParentSpanID →
      p.extractHandler caseTable vars k v =
        ({ vars with parentID := (ParseUint (p.decodeValue v)).1 },
          (ParseUint (p.decodeValue v)).2)) ∧
    (ToLower caseTable k = keySpanID →
      p.extractHandler caseTable vars k v =
        ({ vars with spanID := (ParseUint (p.decodeValue v)).1 },
          (ParseUint (p.decodeValue v)).2)) ∧
    (ToLower caseTable k = keySampled →
      p.extractHandler caseTable vars k v = ({ vars with sampled := true }, none)) ∧
    (¬ IsB3Key (ToLower caseTable k) → p.extractHandler caseTable vars k v = (vars, none)) := by
  obtain ⟨d1, d2, d3, d4, d5, d6⟩ := keys_distinct
  unfold textMapPropagator.extractHandler IsB3Key
  refine ⟨?_, ?_, ?_, ?_, ?_⟩
  · intro h; simp [h]
  · intro h; simp [h, d1.symm]
  · intro h; simp [h, d2.symm, d4.symm]
  · intro h; simp [h, d3.symm, d5.symm, d6.symm]
  · intro h
    simp only [not_or] at h
    simp [h.1, h.2.1, h.2.2.1, h.2.2.2]

/-- The closure returns an error exactly when the key is numeric and the
decoded value does not parse, and the error is then the one of `ParseUint`. -/
theorem extractHandler_err (caseTable : Nat → Nat) (p : textMapPropagator) (vars : ExtractVars)
    (k v : GoString) :
    (p.extractHandler caseTable vars k v).2 =
      if IsNumericKey (ToLower caseTable k) then (ParseUint (p.decodeValue v)).2 else none := by
  obtain ⟨h1, h2, h3, h4, h5⟩ := extractHandler_eq caseTable p vars k v
  obtain ⟨d1, d2, d3, d4, d5, d6⟩ := keys_distinct
  unfold IsNumericKey
  by_cases e1 : ToLower caseTable k = keyTraceID
  · rw [h1 e1]; simp [e1]
  by_cases e2 : ToLower caseTable k = keyParentSpanID
  · rw [h2 e2]; simp [e2]
  by_cases e3 : ToLower caseTable k = keySpanID
  · rw [h3 e3]; simp [e3]
  by_cases e4 : ToLower caseTable k = keySampled
  · rw [h4 e4]; simp [e4, d3.symm, d5.symm, d6.symm]
  · rw [h5 (by unfold IsB3Key; simp [e1, e2, e3, e4])]; simp [e1, e2, e3]

/-- The iteration ends without error exactly when no entry fails to parse. -/
theorem ForeachKey_none_iff (caseTable : Nat → Nat) (p : textMapPropagator) (m : TextMap)
    (st : ExtractVars) :
    (TextMap.ForeachKey (p.extractHandler caseTable) m st).2 = none ↔
      NoParseError caseTable p m := by
  unfold NoParseError
  induction m generalizing st with
  | nil => simp [ForeachKey_nil]
  | cons kv m ih =>
    rw [ForeachKey_cons]
    have he := extractHandler_err caseTable p st kv.1 kv.2
    cases hh : (p.extractHandler caseTable st kv.1 kv.2).2 with
    | some e =>
      simp only [false_iff, reduceCtorEq]
      intro hall
      have := hall kv (List.mem_cons_self _ _)
      rw [hh] at he
      by_cases hk : IsNumericKey (ToLower caseTable kv.1)
      · rw [if_pos hk] at he
        rw [this hk] at he
        exact Option.noConfusion he
      · rw [if_neg hk] at he
        exact Option.noConfusion he
    | none =>
      simp only
      rw [ih]
      rw [hh] at he
      constructor
      · intro hall x hx
        rcases List.mem_cons.mp hx with rfl | hx
        · intro hk
          rw [if_pos hk] at he
          exact he.symm
        · exact hall x hx
      · intro hall x hx
        exact hall x (List.mem_cons_of_mem _ hx)

/-- Every error the iteration ends with is a `NumError` of `ParseUint`. -/
theorem ForeachKey_err (caseTable : Nat → Nat) (p : textMapPropagator) (m : TextMap)
    (st : ExtractVars) (e : Error)
    (h : (TextMap.ForeachKey (p.extractHandler caseTable) m st).2 = some e) :
    ∃ num kind, e = Error.NumError fnParseUint num kind := by
  induction m generalizing st with
  | nil => simp [ForeachKey_nil] at h
  | cons kv m ih =>
    rw [ForeachKey_cons] at h
    have he := extractHandler_err caseTable p st kv.1 kv.2
    cases hh : (p.extractHandler caseTable st kv.1 kv.2).2 with
    | some e2 =>
      rw [hh] at h
      simp only [Option.some.injEq] at h
      subst h
      rw [hh] at he
      by_cases hk : IsNumericKey (ToLower caseTable kv.1)
      · rw [if_pos hk] at he
        obtain ⟨kind, hkind⟩ := ParseUint_err _ _ he.symm
        exact ⟨_, kind, hkind⟩
      · rw [if_neg hk] at he
        exact Option.noConfusion he
    | none =>
      rw [hh] at h
      exact ih _ h

/-- When no entry fails to parse, the iteration leaves in each numeric
variable the parsed value of the last entry under its key, or what it held
before, and sets `sampled` when the sampled key occurs. -/
theorem ForeachKey_ok (caseTable : Nat → Nat) (p : textMapPropagator) (m : TextMap)
    (st : ExtractVars) (h : NoParseError caseTable p m) :
    TextMap.ForeachKey (p.extractHandler caseTable) m st =
      ({ traceID := (lastValue caseTable p keyTraceID m).getD st.traceID
         spanID := (lastValue caseTable p keySpanID m).getD st.spanID
         parentID := (lastValue caseTable p keyParentSpanID m).getD st.parentID
         sampled := st.sampled || hasKey caseTable keySampled m }, none) := by
  induction m generalizing st with
  | nil => simp [ForeachKey_nil, lastValue, hasKey]
  | cons kv m ih =>
    have hm : NoParseError caseTable p m := fun x hx => h x (List.mem_cons_of_mem _ hx)
    have hkv := h kv (List.mem_cons_self _ _)
    have he := extractHandler_err caseTable p st kv.1 kv.2
    have hnone : (p.extractHandler caseTable st kv.1 kv.2).2 = none := by
      rw [he]
      by_cases hk : IsNumericKey (ToLower caseTable kv.1)
      · rw [if_pos hk]; exact hkv hk
      · rw [if_neg hk]
    rw [ForeachKey_cons, hnone]
    simp only
    rw [ih _ hm]
    obtain ⟨h1, h2, h3, h4, h5⟩ := extractHandler_eq caseTable p st kv.1 kv.2
    obtain ⟨d1, d2, d3, d4, d5, d6⟩ := keys_distinct
    obtain ⟨k, v⟩ := kv
    simp only [lastValue, hasKey, List.any_cons]
    by_cases e1 : ToLower caseTable k = keyTraceID
    · rw [h1 e1]
      cases lastValue caseTable p keyTraceID m <;> cases lastValue caseTable p keySpanID m <;>
        cases lastValue caseTable p keyParentSpanID m <;> simp [e1, d1, d2, d3]
    by_cases e2 : ToLower caseTable k = keyParentSpanID
    · rw [h2 e2]
      cases lastValue caseTable p keyTraceID m <;> cases lastValue caseTable p keySpanID m <;>
        cases lastValue caseTable p keyParentSpanID m <;> simp [e2, d1.symm, d4, d5]
    by_cases e3 : ToLower caseTable k = keySpanID
    · rw [h3 e3]
      cases lastValue caseTable p keyTraceID m <;> cases lastValue caseTable p keySpanID m <;>
        cases lastValue caseTable p keyParentSpanID m <;> simp [e3, d2.symm, d4.symm, d6]
    by_cases e4 : ToLower caseTable k = keySampled
    · rw [h4 e4]
      cases lastValue caseTable p keyTraceID m <;> cases lastValue caseTable p keySpanID m <;>
        cases lastValue caseTable p keyParentSpanID m <;>
        simp [e4, d3.symm, d5.symm, d6.symm]
    · rw [h5 (by unfold IsB3Key; simp [e1, e2, e3, e4])]
      cases lastValue caseTable p keyTraceID m <;> cases lastValue caseTable p keySpanID m <;>
        cases lastValue caseTable p keyParentSpanID m <;> simp [e1, e2, e3, e4]

theorem lastValue_eq_none_iff (caseTable : Nat → Nat) (p : textMapPropagator) (key : GoString)
    (m : TextMap) : lastValue caseTable p key m = none ↔ hasKey caseTable key m = false := by
  induction m with
  | nil => simp [lastValue, hasKey]
  | cons kv m ih =>
    obtain ⟨k, v⟩ := kv
    unfold hasKey at ih ⊢
    simp only [lastValue, List.any_cons, Bool.or_eq_false_iff, decide_eq_false_iff_not]
    cases hl : lastValue caseTable p key m with
    | none =>
      rw [hl] at ih
      by_cases hk : ToLower caseTable k = key <;> simp [hk, ih.mp rfl]
    | some n =>
      rw [hl] at ih
      simp only [reduceCtorEq, false_iff] at ih ⊢
      intro hh
      exact ih hh.2

theorem lastValue_append (caseTable : Nat → Nat) (p : textMapPropagator) (key : GoString)
    (a b : TextMap) :
    lastValue caseTable p key (a ++ b) =
      match lastValue caseTable p key b with
      | some n => some n
      | none => lastValue caseTable p key a := by
  induction a with
  | nil => cases hb : lastValue caseTable p key b <;> simp [lastValue, hb]
  | cons kv a ih =>
    obtain ⟨k, v⟩ := kv
    have e : lastValue caseTable p key ((k, v) :: a ++ b) =
        match lastValue caseTable p key (a ++ b) with
        | some n => some n
        | none => if ToLower caseTable k = key then some (ParseUint (p.decodeValue v)).1
          else none := rfl
    rw [e, ih]
    cases hb : lastValue caseTable p key b <;> simp [lastValue]

/-- The method `Extract` on a carrier that can be read, in terms of the
iteration. -/
theorem Extract_reader (caseTable : Nat → Nat) (p : textMapPropagator) (w : Bool) (m : TextMap) :
    p.Extract caseTable ⟨w, true, m⟩ =
      match m.ForeachKey (p.extractHandler caseTable)
          { traceID := 0, spanID := 0, parentID := 0, sampled := false } with
      | (_, some err) => Except.error err
      | (vars, none) =>
        if vars.traceID = 0 then Except.error Error.ErrSpanContextNotFound
        else Except.ok (NewSpanContext vars.traceID vars.spanID vars.parentID vars.sampled) := by
  simp [textMapPropagator.Extract]

/-- The result of `Extract` on a carrier none of whose entries fails to
parse. -/
theorem Extract_of_noParseError (caseTable : Nat → Nat) (p : textMapPropagator) (w : Bool)
    (m : TextMap) (h : NoParseError caseTable p m) :
    p.Extract caseTable ⟨w, true, m⟩ =
      if (lastValue caseTable p keyTraceID m).getD 0 = 0 then
        Except.error Error.ErrSpanContextNotFound
      else Except.ok (NewSpanContext ((lastValue caseTable p keyTraceID m).getD 0)
        ((lastValue caseTable p keySpanID m).getD 0)
        ((lastValue caseTable p keyParentSpanID m).getD 0)
        (hasKey caseTable keySampled m)) := by
  rw [Extract_reader, ForeachKey_ok caseTable p m _ h]
  simp

/-- The result of `Extract` on a carrier one of whose entries fails to
parse. -/
theorem Extract_of_parseError (caseTable : Nat → Nat) (p : textMapPropagator) (w : Bool)
    (m : TextMap) (h : ¬ NoParseError caseTable p m) :
    ∃ num kind, p.Extract caseTable ⟨w, true, m⟩ =
      Except.error (Error.NumError fnParseUint num kind) := by
  rw [Extract_reader]
  rw [← ForeachKey_none_iff caseTable p m
    { traceID := 0, spanID := 0, parentID := 0, sampled := false }] at h
  rcases hf : m.ForeachKey (p.extractHandler caseTable)
      { traceID := 0, spanID := 0, parentID := 0, sampled := false } with ⟨vars, _ | e⟩
  · rw [hf] at h; exact absurd rfl h
  · obtain ⟨num, kind, hk⟩ := ForeachKey_err caseTable p m _ e (by rw [hf])
    exact ⟨num, kind, by simp [hk]⟩

/-- A successful `Extract` read a carrier none of whose entries fails to
parse. -/
theorem noParseError_of_Extract_ok (caseTable : Nat → Nat) (p : textMapPropagator)
    (c : AbstractCarrier) (sc : SpanContext) (h : p.Extract caseTable c = Except.ok sc) :
    c.isTextMapReader = true ∧ NoParseError caseTable p c.entries := by
  obtain ⟨w, r, m⟩ := c
  cases r with
  | false => simp [textMapPropagator.Extract] at h
  | true =>
    refine ⟨rfl, ?_⟩
    by_contra hn
    obtain ⟨num, kind, he⟩ := Extract_of_parseError caseTable p w m hn
    rw [he] at h
    exact Except.noConfusion h

/-! ### `Extract`: not found, parse failure, unknown keys, the sampled flag -/

/-- C2: whenever `Extract` succeeds, under either profile (indeed for any
pair of transforms) and on any carrier, the span context it returns has a
trace id different from zero. -/
theorem Extract_ok_traceID_ne_zero (caseTable : Nat → Nat) (p : textMapPropagator)
    (c : AbstractCarrier) (sc : SpanContext) (h : p.Extract caseTable c = Except.ok sc) :
    sc.traceID ≠ 0 := by
  obtain ⟨w, r, m⟩ := c
  obtain ⟨hr, hno⟩ := noParseError_of_Extract_ok caseTable p _ sc h
  simp only at hr hno
  subst hr
  rw [Extract_of_noParseError caseTable p w m hno] at h
  split_ifs at h with h0
  simp only [Except.ok.injEq] at h
  rw [← h]
  exact h0

theorem Extract_ok_traceID_ne_zero_witness :
    newHTTPHeaderPropagator.Extract id
        ⟨false, true, [(ascii "X-B3-TraceId", ascii "ff"), (ascii "x-b3-spanid", ascii "0")]⟩
      = Except.ok ⟨255, 0, 0, false⟩ ∧ (⟨255, 0, 0, false⟩ : SpanContext).traceID ≠ 0 :=
  ⟨rfl, Extract_ok_traceID_ne_zero id newHTTPHeaderPropagator
    ⟨false, true, [(ascii "X-B3-TraceId", ascii "ff"), (ascii "x-b3-spanid", ascii "0")]⟩
    ⟨255, 0, 0, false⟩ rfl⟩

/-- C3: `Extract` on an empty carrier returns `ErrSpanContextNotFound`, and
so does `Extract` on the carrier holding `"0"` under `x-b3-traceid`, under
either profile. For every carrier `m` whose iteration ends without a parse
error, `Extract` returns `ErrSpanContextNotFound` exactly when the trace id
it accumulated is zero, which is the case exactly when no key lower-cases to
`x-b3-traceid` or the last such entry parses to zero; so it is returned when
the last entry under `x-b3-traceid` holds a value equal to zero. That error
is not a parse error. -/
theorem Extract_not_found (caseTable : Nat → Nat) (p : textMapPropagator) (w : Bool)
    (m : TextMap) (h : NoParseError caseTable p m) :
    p.Extract caseTable ⟨w, true, []⟩ = Except.error Error.ErrSpanContextNotFound ∧
    newTextMapPropagator.Extract caseTable ⟨w, true, [(keyTraceID, ascii "0")]⟩
      = Except.error Error.ErrSpanContextNotFound ∧
    newHTTPHeaderPropagator.Extract caseTable ⟨w, true, [(keyTraceID, ascii "0")]⟩
      = Except.error Error.ErrSpanContextNotFound ∧
    (p.Extract caseTable ⟨w, true, m⟩ = Except.error Error.ErrSpanContextNotFound ↔
      (lastValue caseTable p keyTraceID m).getD 0 = 0) ∧
    ((lastValue caseTable p keyTraceID m).getD 0 = 0 ↔
      (hasKey caseTable keyTraceID m = false ∨ lastValue caseTable p keyTraceID m = some 0)) ∧
    (∀ before after k v, m = before ++ (k, v) :: after → ToLower caseTable k = keyTraceID →
      hasKey caseTable keyTraceID after = false → (ParseUint (p.decodeValue v)).1 = 0 →
      p.Extract caseTable ⟨w, true, m⟩ = Except.error Error.ErrSpanContextNotFound) ∧
    (∀ fn num kind, Error.ErrSpanContextNotFound ≠ Error.NumError fn num kind) := by
  have hiff : p.Extract caseTable ⟨w, true, m⟩ = Except.error Error.ErrSpanContextNotFound ↔
      (lastValue caseTable p keyTraceID m).getD 0 = 0 := by
    rw [Extract_of_noParseError caseTable p w m h]
    split_ifs with h0 <;> simp [h0]
  refine ⟨rfl, rfl, rfl, hiff, ?_, ?_, ?_⟩
  · rw [← lastValue_eq_none_iff caseTable p keyTraceID m]
    cases lastValue caseTable p keyTraceID m <;> simp
  · intro before after k v hm hk hafter hzero
    rw [hiff, hm, lastValue_append]
    have e : lastValue caseTable p keyTraceID ((k, v) :: after) = some 0 := by
      simp only [lastValue, (lastValue_eq_none_iff caseTable p keyTraceID after).mpr hafter, hk,
        if_true, hzero]
    rw [e]
    rfl
  · intro fn num kind hh
    exact Error.noConfusion hh

theorem Extract_not_found_witness :
    NoParseError id newHTTPHeaderPropagator
        [(ascii "X-B3-SpanId", ascii "1f"), (ascii "X-B3-TraceId", ascii "000")] ∧
      newHTTPHeaderPropagator.Extract id
        ⟨false, true, [(ascii "X-B3-SpanId", ascii "1f"), (ascii "X-B3-TraceId", ascii "000")]⟩
        = Except.error Error.ErrSpanContextNotFound :=
  have hno : NoParseError id newHTTPHeaderPropagator
      [(ascii "X-B3-SpanId", ascii "1f"), (ascii "X-B3-TraceId", ascii "000")] := by
    unfold NoParseError; decide
  ⟨hno, (Extract_not_found id newHTTPHeaderPropagator false _ hno).2.2.2.1.mpr rfl⟩

/-- C4: when some entry of the carrier has a key that lower-cases to
`x-b3-traceid`, `x-b3-parentspanid` or `x-b3-spanid` and a value that, once
decoded, is not a valid base-16 unsigned 64-bit numeral, `Extract` fails with
a `NumError` of `ParseUint`: it does not succeed and it does not report
`ErrSpanContextNotFound`. -/
theorem Extract_parse_failure (caseTable : Nat → Nat) (p : textMapPropagator) (w : Bool)
    (m : TextMap) (k v : GoString) (hmem : (k, v) ∈ m)
    (hkey : IsNumericKey (ToLower caseTable k)) (hbad : ¬ IsHexUint64 (p.decodeValue v)) :
    (∃ num kind, p.Extract caseTable ⟨w, true, m⟩ =
      Except.error (Error.NumError fnParseUint num kind)) ∧
    (∀ sc, p.Extract caseTable ⟨w, true, m⟩ ≠ Except.ok sc) ∧
    p.Extract caseTable ⟨w, true, m⟩ ≠ Except.error Error.ErrSpanContextNotFound := by
  have hn : ¬ NoParseError caseTable p m := by
    intro hno
    exact hbad ((ParseUint_none_iff _).mp (hno (k, v) hmem hkey))
  obtain ⟨num, kind, he⟩ := Extract_of_parseError caseTable p w m hn
  refine ⟨⟨num, kind, he⟩, ?_, ?_⟩
  · intro sc hh; rw [he] at hh; exact Except.noConfusion hh
  · intro hh; rw [he] at hh
    simp only [Except.error.injEq] at hh
    exact Error.noConfusion hh

theorem Extract_parse_failure_witness :
    ((ascii "X-B3-SpanId", ascii "zz") ∈
        [(ascii "x-b3-traceid", ascii "1"), (ascii "X-B3-SpanId", ascii "zz")] ∧
      IsNumericKey (ToLower id (ascii "X-B3-SpanId")) ∧
      ¬ IsHexUint64 (newHTTPHeaderPropagator.decodeValue (ascii "zz"))) ∧
    ¬ IsHexUint64 (newTextMapPropagator.decodeValue (ascii "")) ∧
    ¬ IsHexUint64 (newTextMapPropagator.decodeValue (ascii "+1")) ∧
    ¬ IsHexUint64 (newTextMapPropagator.decodeValue (ascii "-1")) ∧
    ¬ IsHexUint64 (newTextMapPropagator.decodeValue (ascii "0x1f")) ∧
    newHTTPHeaderPropagator.Extract id
        ⟨false, true, [(ascii "x-b3-traceid", ascii "1"), (ascii "X-B3-SpanId", ascii "zz")]⟩
      ≠ Except.error Error.ErrSpanContextNotFound :=
  ⟨⟨by decide, by decide, by decide⟩, by decide, by decide, by decide, by decide,
    (Extract_parse_failure id newHTTPHeaderPropagator false
      [(ascii "x-b3-traceid", ascii "1"), (ascii "X-B3-SpanId", ascii "zz")]
      (ascii "X-B3-SpanId") (ascii "zz") (by decide) (by decide) (by decide)).2.2⟩

/-- C6: an entry whose lower-cased key is none of the four B3 keys can be
inserted at any position of a carrier, with any value, without changing what
`Extract` returns, be it a span context or an error. -/
theorem Extract_ignores_unknown_key (caseTable : Nat → Nat) (p : textMapPropagator) (w : Bool)
    (before after : TextMap) (k v : GoString) (h : ¬ IsB3Key (ToLower caseTable k)) :
    p.Extract caseTable ⟨w, true, before ++ (k, v) :: after⟩ =
      p.Extract caseTable ⟨w, true, before ++ after⟩ := by
  rw [Extract_reader, Extract_reader, ForeachKey_append, ForeachKey_append]
  have hk : ∀ st, TextMap.ForeachKey (p.extractHandler caseTable) ((k, v) :: after) st =
      TextMap.ForeachKey (p.extractHandler caseTable) after st := by
    intro st
    rw [ForeachKey_cons]
    simp only [(extractHandler_eq caseTable p st k v).2.2.2.2 h]
  rw [hk]

theorem Extract_ignores_unknown_key_witness :
    ¬ IsB3Key (ToLower id (ascii "X-Request-Id")) ∧
      newHTTPHeaderPropagator.Extract id
          ⟨false, true, [(ascii "x-b3-traceid", ascii "1f")] ++
            (ascii "X-Request-Id", ascii "abc") :: [(ascii "x-b3-sampled", ascii "1")]⟩ =
        Except.ok ⟨31, 0, 0, true⟩ :=
  ⟨by decide,
    (Extract_ignores_unknown_key id newHTTPHeaderPropagator false
      [(ascii "x-b3-traceid", ascii "1f")] [(ascii "x-b3-sampled", ascii "1")]
      (ascii "X-Request-Id") (ascii "abc") (by decide)).trans rfl⟩

/-- C9: when `Extract` succeeds, the sampled flag it returns is true exactly
when some key of the carrier lower-cases to `x-b3-sampled`; the value under
that key is not looked at, and a carrier without the key gives
`sampled = false`. -/
theorem Extract_sampled_iff (caseTable : Nat → Nat) (p : textMapPropagator)
    (c : AbstractCarrier) (sc : SpanContext) (h : p.Extract caseTable c = Except.ok sc) :
    sc.sampled = true ↔ ∃ kv ∈ c.entries, ToLower caseTable kv.1 = keySampled := by
  obtain ⟨w, r, m⟩ := c
  obtain ⟨hr, hno⟩ := noParseError_of_Extract_ok caseTable p _ sc h
  simp only at hr hno
  subst hr
  rw [Extract_of_noParseError caseTable p w m hno] at h
  split_ifs at h with h0
  simp only [Except.ok.injEq] at h
  rw [← h]
  simp [NewSpanContext, hasKey]

theorem Extract_sampled_iff_witness :
    newTextMapPropagator.Extract id
        ⟨false, true, [(ascii "x-b3-traceid", ascii "1f"), (ascii "X-B3-Sampled", ascii "false")]⟩
      = Except.ok ⟨31, 0, 0, true⟩ ∧
    ((⟨31, 0, 0, true⟩ : SpanContext).sampled = true ↔
      ∃ kv ∈ [(ascii "x-b3-traceid", ascii "1f"), (ascii "X-B3-Sampled", ascii "false")],
        ToLower id kv.1 = keySampled) :=
  ⟨rfl, Extract_sampled_iff id newTextMapPropagator
    ⟨false, true, [(ascii "x-b3-traceid", ascii "1f"), (ascii "X-B3-Sampled", ascii "false")]⟩
    ⟨31, 0, 0, true⟩ rfl⟩

/-! ### `Inject` -/

theorem Get_Set_self (m : TextMap) (k v : GoString) : (m.Set k v).Get k = some v := by
  unfold TextMap.Set TextMap.Get
  split_ifs with h
  · induction m with
    | nil => simp at h
    | cons kv m ih =>
      by_cases hk : kv.1 = k
      · simp [List.find?_cons, hk]
      · simp only [List.any_cons, hk, decide_False, Bool.false_or] at h
        simp only [List.map_cons, hk, if_false, List.find?_cons, decide_False]
        exact ih h
  · have hn : ∀ kv ∈ m, ¬ kv.1 = k := by
      intro kv hkv hk
      exact h (List.any_eq_true.mpr ⟨kv, hkv, by simp [hk]⟩)
    rw [List.find?_append]
    have : m.find? (fun kv => decide (kv.1 = k)) = none := by
      rw [List.find?_eq_none]
      intro kv hkv
      simp [hn kv hkv]
    simp [this]

theorem Get_Set_other (m : TextMap) (k v k2 : GoString) (h : k2 ≠ k) :
    (m.Set k v).Get k2 = m.Get k2 := by
  unfold TextMap.Set TextMap.Get
  split_ifs with hany
  · clear hany
    induction m with
    | nil => rfl
    | cons kv m ih =>
      by_cases hk : kv.1 = k
      · have hk2 : ¬ kv.1 = k2 := fun e => h (e ▸ hk)
        simp only [List.map_cons, hk, if_true, List.find?_cons, decide_False, h.symm, hk2]
        exact ih
      · by_cases hk2 : kv.1 = k2
        · rw [List.map_cons, if_neg hk, List.find?_cons_of_pos _ (by simp [hk2]),
            List.find?_cons_of_pos _ (by simp [hk2])]
        · simp only [List.map_cons, hk, if_false, List.find?_cons, hk2, decide_False]
          exact ih
  · rw [List.find?_append]
    cases m.find? (fun kv => decide (kv.1 = k2)) <;> simp [h.symm]

/-- Entries under keys that a predicate separates from `k` are not touched
by `Set k`. -/
theorem filter_Set_other (m : TextMap) (k v : GoString) (q : GoString → Bool)
    (h : q k = false) :
    (m.Set k v).filter (fun kv => q kv.1) = m.filter (fun kv => q kv.1) := by
  unfold TextMap.Set
  split_ifs with hany
  · clear hany
    induction m with
    | nil => rfl
    | cons kv m ih =>
      by_cases hk : kv.1 = k
      · have hq : q kv.1 = false := by rw [hk]; exact h
        simp only [List.map_cons, hk, if_true, List.filter_cons, h, hq, Bool.false_eq_true,
          if_false]
        exact ih
      · simp only [List.map_cons, hk, if_false, List.filter_cons]
        rw [ih]
  · simp [List.filter_append, List.filter_cons, h]

/-- The method `Inject` on a carrier that can be written. -/
theorem Inject_writer (p : textMapPropagator) (sc : SpanContext) (c : AbstractCarrier)
    (hw : c.isTextMapWriter = true) :
    p.Inject sc c = (none, { c with entries :=
      if sc.sampled then
        (((c.entries.Set keyTraceID (p.encodeValue (FormatUint sc.traceID))).Set keyParentSpanID
          (p.encodeValue (FormatUint sc.parentID))).Set keySpanID
          (p.encodeValue (FormatUint sc.spanID))).Set keySampled (p.encodeValue (ascii "1"))
      else
        (((c.entries.Set keyTraceID (p.encodeValue (FormatUint sc.traceID))).Set keyParentSpanID
          (p.encodeValue (FormatUint sc.parentID))).Set keySpanID
          (p.encodeValue (FormatUint sc.spanID))) }) := by
  simp [textMapPropagator.Inject, hw]

/-- C7: on a carrier that can be written, `Inject` returns no error and
afterwards the carrier holds `encodeValue (FormatUint traceID)` under
`x-b3-traceid`, `encodeValue (FormatUint parentID)` under `x-b3-parentspanid`
and `encodeValue (FormatUint spanID)` under `x-b3-spanid`, where `FormatUint`
of a 64-bit value is its lower-case base-16 numeral without leading zeros
(`"0"` for zero); what the carrier holds under any key other than the four
B3 keys is as before. -/
theorem Inject_field_mapping (p : textMapPropagator) (sc : SpanContext) (c : AbstractCarrier)
    (hw : c.isTextMapWriter = true) (ht : sc.traceID < 2 ^ 64) (hs : sc.spanID < 2 ^ 64)
    (hp : sc.parentID < 2 ^ 64) :
    (p.Inject sc c).1 = none ∧
    (p.Inject sc c).2.entries.Get keyTraceID = some (p.encodeValue (FormatUint sc.traceID)) ∧
    (p.Inject sc c).2.entries.Get keyParentSpanID
      = some (p.encodeValue (FormatUint sc.parentID)) ∧
    (p.Inject sc c).2.entries.Get keySpanID = some (p.encodeValue (FormatUint sc.spanID)) ∧
    IsLowerHexNumeral (FormatUint sc.traceID) sc.traceID ∧
    IsLowerHexNumeral (FormatUint sc.parentID) sc.parentID ∧
    IsLowerHexNumeral (FormatUint sc.spanID) sc.spanID ∧
    FormatUint 0 = ascii "0" ∧
    (∀ key, ¬ IsB3Key key → (p.Inject sc c).2.entries.Get key = c.entries.Get key) ∧
    (p.Inject sc c).2.entries.filter (fun kv => !decide (IsB3Key kv.1))
      = c.entries.filter (fun kv => !decide (IsB3Key kv.1)) := by
  obtain ⟨d1, d2, d3, d4, d5, d6⟩ := keys_distinct
  rw [Inject_writer p sc c hw]
  refine ⟨rfl, ?_, ?_, ?_, FormatUint_spec _ ht, FormatUint_spec _ hp, FormatUint_spec _ hs,
    by decide, ?_, ?_⟩
  · cases sc.sampled
    · simp only [Bool.false_eq_true, if_false]
      rw [Get_Set_other _ _ _ _ d2, Get_Set_other _ _ _ _ d1, Get_Set_self]
    · simp only [if_true]
      rw [Get_Set_other _ _ _ _ d3, Get_Set_other _ _ _ _ d2, Get_Set_other _ _ _ _ d1,
        Get_Set_self]
  · cases sc.sampled
    · simp only [Bool.false_eq_true, if_false]
      rw [Get_Set_other _ _ _ _ d4, Get_Set_self]
    · simp only [if_true]
      rw [Get_Set_other _ _ _ _ d5, Get_Set_other _ _ _ _ d4, Get_Set_self]
  · cases sc.sampled
    · simp only [Bool.false_eq_true, if_false]
      rw [Get_Set_self]
    · simp only [if_true]
      rw [Get_Set_other _ _ _ _ d6, Get_Set_self]
  · intro key hkey
    unfold IsB3Key at hkey
    simp only [not_or] at hkey
    obtain ⟨n1, n2, n3, n4⟩ := hkey
    cases sc.sampled
    · simp only [Bool.false_eq_true, if_false]
      rw [Get_Set_other _ _ _ _ n3, Get_Set_other _ _ _ _ n2, Get_Set_other _ _ _ _ n1]
    · simp only [if_true]
      rw [Get_Set_other _ _ _ _ n4, Get_Set_other _ _ _ _ n3, Get_Set_other _ _ _ _ n2,
        Get_Set_other _ _ _ _ n1]
  · have q1 : (fun k : GoString => !decide (IsB3Key k)) keyTraceID = false := by decide
    have q2 : (fun k : GoString => !decide (IsB3Key k)) keyParentSpanID = false := by decide
    have q3 : (fun k : GoString => !decide (IsB3Key k)) keySpanID = false := by decide
    have q4 : (fun k : GoString => !decide (IsB3Key k)) keySampled = false := by decide
    cases sc.sampled
    · simp only [Bool.false_eq_true, if_false]
      rw [filter_Set_other _ _ _ (fun k => !decide (IsB3Key k)) q3,
        filter_Set_other _ _ _ (fun k => !decide (IsB3Key k)) q2,
        filter_Set_other _ _ _ (fun k => !decide (IsB3Key k)) q1]
    · simp only [if_true]
      rw [filter_Set_other _ _ _ (fun k => !decide (IsB3Key k)) q4,
        filter_Set_other _ _ _ (fun k => !decide (IsB3Key k)) q3,
        filter_Set_other _ _ _ (fun k => !decide (IsB3Key k)) q2,
        filter_Set_other _ _ _ (fun k => !decide (IsB3Key k)) q1]

theorem Inject_field_mapping_witness :
    (⟨true, false, [(ascii "x-request-id", ascii "abc"), (ascii "x-b3-spanid", ascii "7")]⟩
        : AbstractCarrier).isTextMapWriter = true ∧
    (newHTTPHeaderPropagator.Inject ⟨255, 26, 0, false⟩
        ⟨true, false, [(ascii "x-request-id", ascii "abc"), (ascii "x-b3-spanid", ascii "7")]⟩).2
      = ⟨true, false, [(ascii "x-request-id", ascii "abc"), (ascii "x-b3-spanid", ascii "1a"),
          (ascii "x-b3-traceid", ascii "ff"), (ascii "x-b3-parentspanid", ascii "0")]⟩ ∧
    (newHTTPHeaderPropagator.Inject ⟨255, 26, 0, false⟩
        ⟨true, false, [(ascii "x-request-id", ascii "abc"), (ascii "x-b3-spanid", ascii "7")]⟩
      ).2.entries.Get keyParentSpanID
      = some (newHTTPHeaderPropagator.encodeValue (FormatUint 0)) :=
  ⟨rfl, rfl, (Inject_field_mapping newHTTPHeaderPropagator ⟨255, 26, 0, false⟩
    ⟨true, false, [(ascii "x-request-id", ascii "abc"), (ascii "x-b3-spanid", ascii "7")]⟩
    rfl (by decide) (by decide) (by decide)).2.2.1⟩

/-- C8: on a carrier that can be written, `Inject` of a sampled context
leaves `encodeValue "1"` under `x-b3-sampled`, and `Inject` of a context that
is not sampled leaves the entries under `x-b3-sampled` exactly as they were;
so after `Inject` into an empty carrier the key holds `encodeValue "1"` when
the context is sampled and is absent when it is not. -/
theorem Inject_sampled (p : textMapPropagator) (sc : SpanContext) (c : AbstractCarrier)
    (hw : c.isTextMapWriter = true) :
    (sc.sampled = true →
      (p.Inject sc c).2.entries.Get keySampled = some (p.encodeValue (ascii "1"))) ∧
    (sc.sampled = false →
      (p.Inject sc c).2.entries.filter (fun kv => decide (kv.1 = keySampled))
        = c.entries.filter (fun kv => decide (kv.1 = keySampled)) ∧
      (p.Inject sc c).2.entries.Get keySampled = c.entries.Get keySampled) ∧
    (sc.sampled = true ↔
      (p.Inject sc { c with entries := [] }).2.entries.Get keySampled
        = some (p.encodeValue (ascii "1"))) ∧
    (sc.sampled = false ↔
      ∀ kv ∈ (p.Inject sc { c with entries := [] }).2.entries, kv.1 ≠ keySampled) := by
  obtain ⟨d1, d2, d3, d4, d5, d6⟩ := keys_distinct
  have hw2 : ({ c with entries := [] } : AbstractCarrier).isTextMapWriter = true := hw
  rw [Inject_writer p sc c hw, Inject_writer p sc _ hw2]
  have q1 : (fun k : GoString => decide (k = keySampled)) keyTraceID = false := by decide
  have q2 : (fun k : GoString => decide (k = keySampled)) keyParentSpanID = false := by decide
  have q3 : (fun k : GoString => decide (k = keySampled)) keySpanID = false := by decide
  cases sc.sampled
  · simp only [Bool.false_eq_true, if_false, false_implies, true_implies, true_and, false_iff,
      true_iff]
    refine ⟨⟨?_, ?_⟩, ?_, ?_⟩
    · rw [filter_Set_other _ _ _ (fun k => decide (k = keySampled)) q3,
        filter_Set_other _ _ _ (fun k => decide (k = keySampled)) q2,
        filter_Set_other _ _ _ (fun k => decide (k = keySampled)) q1]
    · rw [Get_Set_other _ _ _ _ d6.symm, Get_Set_other _ _ _ _ d5.symm,
        Get_Set_other _ _ _ _ d3.symm]
    · rw [Get_Set_other _ _ _ _ d6.symm, Get_Set_other _ _ _ _ d5.symm,
        Get_Set_other _ _ _ _ d3.symm]
      simp [TextMap.Get]
    · intro kv hkv
      have hf : kv ∈ (TextMap.Set (TextMap.Set (TextMap.Set [] keyTraceID
          (p.encodeValue (FormatUint sc.traceID))) keyParentSpanID
          (p.encodeValue (FormatUint sc.parentID))) keySpanID
          (p.encodeValue (FormatUint sc.spanID))).filter
            (fun kv => decide (kv.1 = keySampled)) → False := by
        rw [filter_Set_other _ _ _ (fun k => decide (k = keySampled)) q3,
          filter_Set_other _ _ _ (fun k => decide (k = keySampled)) q2,
          filter_Set_other _ _ _ (fun k => decide (k = keySampled)) q1]
        simp
      intro hk
      exact hf (List.mem_filter.mpr ⟨hkv, by simp [hk]⟩)
  · simp only [if_true, true_implies, false_implies, true_and, and_true, true_iff,
      reduceCtorEq, false_iff, not_forall]
    refine ⟨Get_Set_self _ _ _, Get_Set_self _ _ _, ?_⟩
    have hg := Get_Set_self (TextMap.Set (TextMap.Set (TextMap.Set [] keyTraceID
      (p.encodeValue (FormatUint sc.traceID))) keyParentSpanID
      (p.encodeValue (FormatUint sc.parentID))) keySpanID
      (p.encodeValue (FormatUint sc.spanID))) keySampled (p.encodeValue (ascii "1"))
    unfold TextMap.Get at hg
    rw [Option.map_eq_some'] at hg
    obtain ⟨kv, hfind, _⟩ := hg
    have hmem := List.mem_of_find?_eq_some hfind
    have hkey := List.find?_some hfind
    exact ⟨kv, hmem, by simpa using hkey⟩

theorem Inject_sampled_witness :
    (⟨true, true, [(ascii "x-b3-sampled", ascii "1")]⟩ : AbstractCarrier).isTextMapWriter = true ∧
    (newHTTPHeaderPropagator.Inject ⟨255, 26, 0, false⟩ ⟨true, true, []⟩).2
      = ⟨true, true, [(ascii "x-b3-traceid", ascii "ff"), (ascii "x-b3-parentspanid", ascii "0"),
          (ascii "x-b3-spanid", ascii "1a")]⟩ ∧
    ((⟨255, 26, 0, true⟩ : SpanContext).sampled = true →
      (newHTTPHeaderPropagator.Inject ⟨255, 26, 0, true⟩
        ⟨true, true, [(ascii "x-b3-sampled", ascii "1")]⟩).2.entries.Get keySampled
      = some (newHTTPHeaderPropagator.encodeValue (ascii "1"))) :=
  ⟨rfl, rfl, (Inject_sampled newHTTPHeaderPropagator ⟨255, 26, 0, true⟩
    ⟨true, true, [(ascii "x-b3-sampled", ascii "1")]⟩ rfl).1⟩

/-! ### The transforms -/

/-- Under the header-safe profile decoding undoes encoding. -/
theorem http_decode_of_encode (s : GoString) :
    newHTTPHeaderPropagator.decodeValue (newHTTPHeaderPropagator.encodeValue s) = s := by
  simp only [newHTTPHeaderPropagator]
  rw [QueryUnescape_QueryEscape]

/-- C10: under the header-safe profile `decodeValue (encodeValue s) = s` for
every byte string `s`, spaces, `+`, `%` and bytes above `0x7F` included;
under the plain profile `encodeValue` and `decodeValue` return their
argument. -/
theorem decodeValue_encodeValue (s : GoString) :
    newHTTPHeaderPropagator.decodeValue (newHTTPHeaderPropagator.encodeValue s) = s ∧
    newTextMapPropagator.encodeValue s = s ∧ newTextMapPropagator.decodeValue s = s := by
  refine ⟨?_, rfl, rfl⟩
  show (match QueryUnescape (QueryEscape s) with
    | (v, none) => v
    | (_, some _) => QueryEscape s) = s
  rw [QueryUnescape_QueryEscape]

/-! ### Round trip -/

/-- The four B3 keys are in lower case already, whatever the case table. -/
theorem ToLower_keys (caseTable : Nat → Nat) :
    ToLower caseTable keyTraceID = keyTraceID ∧
    ToLower caseTable keyParentSpanID = keyParentSpanID ∧
    ToLower caseTable keySpanID = keySpanID ∧
    ToLower caseTable keySampled = keySampled :=
  ⟨rfl, rfl, rfl, rfl⟩

/-- When some entry has the key and all entries with the key parse to `n`,
the last value under the key is `n`. -/
theorem lastValue_of_all (caseTable : Nat → Nat) (p : textMapPropagator) (key : GoString)
    (n : Nat) (m : TextMap) (h1 : hasKey caseTable key m = true)
    (h2 : ∀ kv ∈ m, ToLower caseTable kv.1 = key → (ParseUint (p.decodeValue kv.2)).1 = n) :
    lastValue caseTable p key m = some n := by
  induction m with
  | nil => simp [hasKey] at h1
  | cons kv m ih =>
    obtain ⟨k, v⟩ := kv
    have h2m : ∀ kv ∈ m, ToLower caseTable kv.1 = key →
        (ParseUint (p.decodeValue kv.2)).1 = n := fun x hx => h2 x (List.mem_cons_of_mem _ hx)
    simp only [lastValue]
    cases hl : lastValue caseTable p key m with
    | some x =>
      have hk : hasKey caseTable key m = true := by
        by_contra hc
        rw [Bool.not_eq_true] at hc
        rw [(lastValue_eq_none_iff caseTable p key m).mpr hc] at hl
        exact Option.noConfusion hl
      rw [ih hk h2m] at hl
      simp only [hl]
    | none =>
      have hk := (lastValue_eq_none_iff caseTable p key m).mp hl
      unfold hasKey at h1 hk
      simp only [List.any_cons, hk, Bool.or_false, decide_eq_true_eq] at h1
      simp only [h1, if_true]
      rw [h2 (k, v) (List.mem_cons_self _ _) h1]

theorem Inject_empty_entries (p : textMapPropagator) (sc : SpanContext) (r : Bool) :
    p.Inject sc ⟨true, r, []⟩ = (none, ⟨true, r,
      [(keyTraceID, p.encodeValue (FormatUint sc.traceID)),
        (keyParentSpanID, p.encodeValue (FormatUint sc.parentID)),
        (keySpanID, p.encodeValue (FormatUint sc.spanID))] ++
      (if sc.sampled then [(keySampled, p.encodeValue (ascii "1"))] else [])⟩) := by
  obtain ⟨d1, d2, d3, d4, d5, d6⟩ := keys_distinct
  rw [Inject_writer p sc _ rfl]
  cases sc.sampled <;>
    simp [TextMap.Set, d1, d2, d3, d4, d5, d6, d1.symm, d2.symm, d3.symm, d4.symm, d5.symm,
      d6.symm]

/-- Round trip for any pair of transforms of which `decodeValue` undoes
`encodeValue`: after `Inject` into an empty carrier, `Extract` returns the
context, in whatever order the carrier hands out its entries. -/
theorem roundtrip_of_inverse (caseTable : Nat → Nat) (p : textMapPropagator)
    (hinv : ∀ s, p.decodeValue (p.encodeValue s) = s) (sc : SpanContext)
    (h0 : sc.traceID ≠ 0) (ht : sc.traceID < 2 ^ 64) (hs : sc.spanID < 2 ^ 64)
    (hp : sc.parentID < 2 ^ 64) (w r : Bool) (l : TextMap)
    (hl : l.Perm (p.Inject sc ⟨true, r, []⟩).2.entries) :
    p.Extract caseTable ⟨w, true, l⟩ = Except.ok sc := by
  obtain ⟨d1, d2, d3, d4, d5, d6⟩ := keys_distinct
  obtain ⟨t1, t2, t3, t4⟩ := ToLower_keys caseTable
  rw [Inject_empty_entries] at hl
  simp only at hl
  have hmem : ∀ kv, kv ∈ l ↔
      (kv = (keyTraceID, p.encodeValue (FormatUint sc.traceID)) ∨
       kv = (keyParentSpanID, p.encodeValue (FormatUint sc.parentID)) ∨
       kv = (keySpanID, p.encodeValue (FormatUint sc.spanID)) ∨
       (sc.sampled = true ∧ kv = (keySampled, p.encodeValue (ascii "1")))) := by
    intro kv
    rw [hl.mem_iff]
    cases sc.sampled <;> simp
  have hno : NoParseError caseTable p l := by
    intro kv hkv hnum
    rcases (hmem kv).mp hkv with rfl | rfl | rfl | ⟨_, rfl⟩
    · simp only [hinv, ParseUint_FormatUint _ ht]
    · simp only [hinv, ParseUint_FormatUint _ hp]
    · simp only [hinv, ParseUint_FormatUint _ hs]
    · exfalso
      simp only [t4] at hnum
      revert hnum
      decide
  have hval : ∀ key val n, n < 2 ^ 64 → (key, p.encodeValue (FormatUint n)) ∈ l →
      ToLower caseTable key = key →
      (∀ kv ∈ l, ToLower caseTable kv.1 = key → kv = (key, p.encodeValue (FormatUint n))) →
      val = n → (lastValue caseTable p key l).getD 0 = val := by
    intro key val n hn hin hkey huniq hv
    rw [lastValue_of_all caseTable p key n l]
    · simp [hv]
    · unfold hasKey
      exact List.any_eq_true.mpr ⟨_, hin, by simp [hkey]⟩
    · intro kv hkv hk
      rw [huniq kv hkv hk]
      simp only [hinv, ParseUint_FormatUint _ hn]
  have e1 : (lastValue caseTable p keyTraceID l).getD 0 = sc.traceID := by
    apply hval keyTraceID _ _ ht ((hmem _).mpr (Or.inl rfl)) t1 _ rfl
    intro kv hkv hk
    rcases (hmem kv).mp hkv with rfl | rfl | rfl | ⟨_, rfl⟩
    · rfl
    · rw [t2] at hk; exact absurd hk d1.symm
    · rw [t3] at hk; exact absurd hk d2.symm
    · rw [t4] at hk; exact absurd hk d3.symm
  have e2 : (lastValue caseTable p keyParentSpanID l).getD 0 = sc.parentID := by
    apply hval keyParentSpanID _ _ hp ((hmem _).mpr (Or.inr (Or.inl rfl))) t2 _ rfl
    intro kv hkv hk
    rcases (hmem kv).mp hkv with rfl | rfl | rfl | ⟨_, rfl⟩
    · rw [t1] at hk; exact absurd hk d1
    · rfl
    · rw [t3] at hk; exact absurd hk d4.symm
    · rw [t4] at hk; exact absurd hk d5.symm
  have e3 : (lastValue caseTable p keySpanID l).getD 0 = sc.spanID := by
    apply hval keySpanID _ _ hs ((hmem _).mpr (Or.inr (Or.inr (Or.inl rfl)))) t3 _ rfl
    intro kv hkv hk
    rcases (hmem kv).mp hkv with rfl | rfl | rfl | ⟨_, rfl⟩
    · rw [t1] at hk; exact absurd hk d2
    · rw [t2] at hk; exact absurd hk d4
    · rfl
    · rw [t4] at hk; exact absurd hk d6.symm
  have e4 : hasKey caseTable keySampled l = sc.sampled := by
    unfold hasKey
    cases hsm : sc.sampled with
    | true =>
      exact List.any_eq_true.mpr
        ⟨_, (hmem _).mpr (Or.inr (Or.inr (Or.inr ⟨hsm, rfl⟩))), by simp [t4]⟩
    | false =>
      rw [Bool.eq_false_iff]
      intro hany
      obtain ⟨kv, hkv, hk⟩ := List.any_eq_true.mp hany
      simp only [decide_eq_true_eq] at hk
      rcases (hmem kv).mp hkv with rfl | rfl | rfl | ⟨hh, _⟩
      · rw [t1] at hk; exact absurd hk d3
      · rw [t2] at hk; exact absurd hk d5
      · rw [t3] at hk; exact absurd hk d6
      · rw [hsm] at hh; exact Bool.noConfusion hh
  rw [Extract_of_noParseError caseTable p w l hno, e1, e2, e3, e4, if_neg h0]
  rfl

/-- C1: for every trace context with a trace id other than zero (the three
ids being 64-bit values) and for each of the two profiles, `Inject` into an
empty carrier returns no error, and `Extract` on the resulting carrier, read
in any order of its entries, returns a context with the same trace id, span
id, parent span id and sampled flag. -/
theorem Inject_Extract_roundtrip (caseTable : Nat → Nat) (p : textMapPropagator)
    (sc : SpanContext) (hprofile : p = newTextMapPropagator ∨ p = newHTTPHeaderPropagator)
    (h0 : sc.traceID ≠ 0) (ht : sc.traceID < 2 ^ 64) (hs : sc.spanID < 2 ^ 64)
    (hp : sc.parentID < 2 ^ 64) :
    (p.Inject sc ⟨true, true, []⟩).1 = none ∧
    p.Extract caseTable (p.Inject sc ⟨true, true, []⟩).2 = Except.ok sc ∧
    (∀ l, l.Perm (p.Inject sc ⟨true, true, []⟩).2.entries →
      p.Extract caseTable ⟨true, true, l⟩ = Except.ok sc) := by
  have hinv : ∀ s, p.decodeValue (p.encodeValue s) = s := by
    intro s
    rcases hprofile with rfl | rfl
    · rfl
    · exact (http_decode_of_encode s)
  refine ⟨by rw [Inject_empty_entries], ?_, ?_⟩
  · have := roundtrip_of_inverse caseTable p hinv sc h0 ht hs hp true true
      (p.Inject sc ⟨true, true, []⟩).2.entries (List.Perm.refl _)
    rw [Inject_empty_entries] at this ⊢
    exact this
  · intro l hl
    exact roundtrip_of_inverse caseTable p hinv sc h0 ht hs hp true true l hl

theorem Inject_Extract_roundtrip_witness :
    ((newHTTPHeaderPropagator = newTextMapPropagator ∨
        newHTTPHeaderPropagator = newHTTPHeaderPropagator) ∧
      (⟨18446744073709551615, 26, 0, true⟩ : SpanContext).traceID ≠ 0) ∧
    newHTTPHeaderPropagator.Extract id
        (newHTTPHeaderPropagator.Inject ⟨18446744073709551615, 26, 0, true⟩ ⟨true, true, []⟩).2
      = Except.ok ⟨18446744073709551615, 26, 0, true⟩ ∧
    newTextMapPropagator.Extract id
        (newTextMapPropagator.Inject ⟨1, 0, 0, false⟩ ⟨true, true, []⟩).2
      = Except.ok ⟨1, 0, 0, false⟩ :=
  ⟨⟨Or.inr rfl, by decide⟩,
    (Inject_Extract_roundtrip id newHTTPHeaderPropagator ⟨18446744073709551615, 26, 0, true⟩
      (Or.inr rfl) (by decide) (by decide) (by decide) (by decide)).2.1,
    (Inject_Extract_roundtrip id newTextMapPropagator ⟨1, 0, 0, false⟩
      (Or.inl rfl) (by decide) (by decide) (by decide) (by decide)).2.1⟩

/-! ### `unicode/utf8` -/

theorem byte_val (n : Nat) : (byte n).val = n % 256 := rfl

theorem lor_of_lt (a b i : Nat) (hb : b < 2 ^ i) (ha : a % 2 ^ i = 0) : a ||| b = a + b := by
  have h := Nat.mul_add_lt_is_or hb (a / 2 ^ i)
  have e : 2 ^ i * (a / 2 ^ i) = a := by
    have := Nat.div_add_mod a (2 ^ i)
    omega
  rw [e] at h
  exact h.symm

theorem and_mask (x : Nat) :
    x &&& 0x3F = x % 64 ∧ x &&& 0x1F = x % 32 ∧ x &&& 0x0F = x % 16 ∧ x &&& 0x07 = x % 8 :=
  ⟨Nat.and_pow_two_sub_one_eq_mod x 6, Nat.and_pow_two_sub_one_eq_mod x 5,
    Nat.and_pow_two_sub_one_eq_mod x 4, Nat.and_pow_two_sub_one_eq_mod x 3⟩

theorem dec2 (a b : Nat) : (a &&& 0x1F) <<< 6 ||| (b &&& 0x3F) = (a % 32) * 64 + b % 64 := by
  rw [(and_mask a).2.1, (and_mask b).1, Nat.shiftLeft_eq]
  exact lor_of_lt _ _ 6 (Nat.mod_lt _ (by decide)) (by simp)

theorem dec3 (a b c : Nat) :
    (a &&& 0x0F) <<< 12 ||| (b &&& 0x3F) <<< 6 ||| (c &&& 0x3F)
      = (a % 16) * 4096 + (b % 64) * 64 + c % 64 := by
  rw [(and_mask a).2.2.1, (and_mask b).1, (and_mask c).1, Nat.shiftLeft_eq, Nat.shiftLeft_eq]
  rw [lor_of_lt (a % 16 * 2 ^ 12) (b % 64 * 2 ^ 6) 12 (by norm_num; omega) (by simp)]
  exact lor_of_lt _ _ 6 (Nat.mod_lt _ (by decide)) (by norm_num; omega)

theorem dec4 (a b c d : Nat) :
    (a &&& 0x07) <<< 18 ||| (b &&& 0x3F) <<< 12 ||| (c &&& 0x3F) <<< 6 ||| (d &&& 0x3F)
      = (a % 8) * 262144 + (b % 64) * 4096 + (c % 64) * 64 + d % 64 := by
  rw [(and_mask a).2.2.2, (and_mask b).1, (and_mask c).1, (and_mask d).1, Nat.shiftLeft_eq,
    Nat.shiftLeft_eq, Nat.shiftLeft_eq]
  rw [lor_of_lt (a % 8 * 2 ^ 18) (b % 64 * 2 ^ 12) 18 (by norm_num; omega) (by simp)]
  rw [lor_of_lt (a % 8 * 2 ^ 18 + b % 64 * 2 ^ 12) (c % 64 * 2 ^ 6) 12 (by norm_num; omega)
    (by norm_num; omega)]
  exact lor_of_lt _ _ 6 (Nat.mod_lt _ (by decide)) (by norm_num; omega)

theorem encx (x : Nat) : 0x80 ||| (x &&& 0x3F) = 128 + x % 64 := by
  rw [(and_mask x).1]
  exact lor_of_lt 128 _ 7 (by norm_num; omega) (by decide)

theorem enc2 (r : Nat) (h : r ≤ 0x7FF) : 0xC0 ||| (r >>> 6) = 192 + r / 64 := by
  rw [Nat.shiftRight_eq_div_pow]
  exact lor_of_lt 192 _ 6 (by norm_num; omega) (by decide)

theorem enc3 (r : Nat) (h : r ≤ 0xFFFF) : 0xE0 ||| (r >>> 12) = 224 + r / 4096 := by
  rw [Nat.shiftRight_eq_div_pow]
  exact lor_of_lt 224 _ 5 (by norm_num; omega) (by decide)

theorem enc4 (r : Nat) (h : r ≤ 0x10FFFF) : 0xF0 ||| (r >>> 18) = 240 + r / 262144 := by
  rw [Nat.shiftRight_eq_div_pow]
  exact lor_of_lt 240 _ 4 (by norm_num; omega) (by decide)


theorem decode_ascii (s0 : Byte) (t : List Byte) (h : s0.val < 0x80) :
    DecodeRuneInString (s0 :: t) = (s0.val, 1) := by
  simp [DecodeRuneInString, h]

theorem decode_invalid (s0 : Byte) (t : List Byte) (h1 : ¬ s0.val < 0x80)
    (h2 : s0.val < 0xC2 ∨ 0xF4 < s0.val) :
    DecodeRuneInString (s0 :: t) = (RuneError, 1) := by
  simp [DecodeRuneInString, h1, h2]

theorem decode_two (s0 : Byte) (t : List Byte) (h : 0xC2 ≤ s0.val ∧ s0.val ≤ 0xDF) :
    DecodeRuneInString (s0 :: t) =
      match t with
      | [] => (RuneError, 1)
      | s1 :: _ =>
        if s1.val < 0x80 ∨ 0xBF < s1.val then (RuneError, 1)
        else ((s0.val % 32) * 64 + s1.val % 64, 2) := by
  have a1 : ¬ s0.val < 0x80 := by omega
  have a2 : ¬ (s0.val < 0xC2 ∨ 0xF4 < s0.val) := by omega
  have a3 : s0.val < 0xE0 := by omega
  have a4 : ¬ s0.val = 0xE0 := by omega
  have a5 : ¬ s0.val = 0xF0 := by omega
  have a6 : ¬ s0.val = 0xED := by omega
  have a7 : ¬ s0.val = 0xF4 := by omega
  rcases t with _ | ⟨s1, t1⟩
  · simp [DecodeRuneInString, a1, a2, a3]
  · simp only [DecodeRuneInString, a1, a2, a3, a4, a5, a6, a7, if_true, if_false,
      List.length_cons, dec2]
    have e : ¬ (t1.length + 1 + 1 < 2) := by omega
    simp only [e, if_false, le_refl, if_true]

theorem decode_three (s0 : Byte) (t : List Byte) (h : 0xE0 ≤ s0.val ∧ s0.val ≤ 0xEF) :
    DecodeRuneInString (s0 :: t) =
      match t with
      | s1 :: s2 :: _ =>
        if s1.val < (if s0.val = 0xE0 then 0xA0 else 0x80)
            ∨ (if s0.val = 0xED then 0x9F else 0xBF) < s1.val then (RuneError, 1)
        else if s2.val < 0x80 ∨ 0xBF < s2.val then (RuneError, 1)
        else ((s0.val % 16) * 4096 + (s1.val % 64) * 64 + s2.val % 64, 3)
      | _ => (RuneError, 1) := by
  have a1 : ¬ s0.val < 0x80 := by omega
  have a2 : ¬ (s0.val < 0xC2 ∨ 0xF4 < s0.val) := by omega
  have a3 : ¬ s0.val < 0xE0 := by omega
  have a4 : s0.val < 0xF0 := by omega
  have a5 : ¬ s0.val = 0xF0 := by omega
  have a7 : ¬ s0.val = 0xF4 := by omega
  rcases t with _ | ⟨s1, _ | ⟨s2, t2⟩⟩
  · simp [DecodeRuneInString, a1, a2, a3, a4]
  · simp [DecodeRuneInString, a1, a2, a3, a4]
  · simp only [DecodeRuneInString, a1, a2, a3, a4, a5, a7, if_true, if_false,
      List.length_cons, dec3]
    have e : ¬ (t2.length + 1 + 1 + 1 < 3) := by omega
    have e2 : ¬ (3 ≤ 2) := by omega
    simp only [e, e2, if_false, le_refl, if_true]

theorem decode_four (s0 : Byte) (t : List Byte) (h : 0xF0 ≤ s0.val ∧ s0.val ≤ 0xF4) :
    DecodeRuneInString (s0 :: t) =
      match t with
      | s1 :: s2 :: s3 :: _ =>
        if s1.val < (if s0.val = 0xF0 then 0x90 else 0x80)
            ∨ (if s0.val = 0xF4 then 0x8F else 0xBF) < s1.val then (RuneError, 1)
        else if s2.val < 0x80 ∨ 0xBF < s2.val then (RuneError, 1)
        else if s3.val < 0x80 ∨ 0xBF < s3.val then (RuneError, 1)
        else ((s0.val % 8) * 262144 + (s1.val % 64) * 4096 + (s2.val % 64) * 64
          + s3.val % 64, 4)
      | _ => (RuneError, 1) := by
  have a1 : ¬ s0.val < 0x80 := by omega
  have a2 : ¬ (s0.val < 0xC2 ∨ 0xF4 < s0.val) := by omega
  have a3 : ¬ s0.val < 0xE0 := by omega
  have a4 : ¬ s0.val < 0xF0 := by omega
  have a5 : ¬ s0.val = 0xE0 := by omega
  have a6 : ¬ s0.val = 0xED := by omega
  rcases t with _ | ⟨s1, _ | ⟨s2, _ | ⟨s3, t3⟩⟩⟩
  · simp [DecodeRuneInString, a1, a2, a3, a4]
  · simp [DecodeRuneInString, a1, a2, a3, a4]
  · simp [DecodeRuneInString, a1, a2, a3, a4]
  · simp only [DecodeRuneInString, a1, a2, a3, a4, a5, a6, if_true, if_false,
      List.length_cons, dec4]
    have e : ¬ (t3.length + 1 + 1 + 1 + 1 < 4) := by omega
    have e2 : ¬ (4 ≤ 2) := by omega
    have e3 : ¬ (4 ≤ 3) := by omega
    simp only [e, e2, e3, if_false, le_refl, if_true]

/-- The decoder returns a Unicode scalar value, and on a string that is not
empty it consumes at least one byte and no more than there are. -/
theorem DecodeRuneInString_valid (s0 : Byte) (t : List Byte) :
    ValidRune (DecodeRuneInString (s0 :: t)).1 ∧ 1 ≤ (DecodeRuneInString (s0 :: t)).2 ∧
      (DecodeRuneInString (s0 :: t)).2 ≤ (s0 :: t).length := by
  have hlt := s0.isLt
  by_cases h1 : s0.val < 0x80
  · rw [decode_ascii s0 t h1]
    simp only [ValidRune, MaxRune, List.length_cons]
    omega
  by_cases h2 : s0.val < 0xC2 ∨ 0xF4 < s0.val
  · rw [decode_invalid s0 t h1 h2]
    simp only [ValidRune, MaxRune, RuneError, List.length_cons]
    omega
  by_cases h3 : s0.val ≤ 0xDF
  · rw [decode_two s0 t ⟨by omega, h3⟩]
    rcases t with _ | ⟨s1, t1⟩
    · simp only [ValidRune, MaxRune, RuneError, List.length_cons]; omega
    · simp only [List.length_cons]
      split_ifs <;> simp only [ValidRune, MaxRune, RuneError] <;> omega
  by_cases h4 : s0.val ≤ 0xEF
  · rw [decode_three s0 t ⟨by omega, h4⟩]
    rcases t with _ | ⟨s1, _ | ⟨s2, t2⟩⟩
    · simp only [ValidRune, MaxRune, RuneError, List.length_cons]; omega
    · simp only [ValidRune, MaxRune, RuneError, List.length_cons]; omega
    · simp only [List.length_cons]
      split_ifs <;> simp only [ValidRune, MaxRune, RuneError] <;> omega
  · rw [decode_four s0 t ⟨by omega, by omega⟩]
    rcases t with _ | ⟨s1, _ | ⟨s2, _ | ⟨s3, t3⟩⟩⟩
    · simp only [ValidRune, MaxRune, RuneError, List.length_cons]; omega
    · simp only [ValidRune, MaxRune, RuneError, List.length_cons]; omega
    · simp only [ValidRune, MaxRune, RuneError, List.length_cons]; omega
    · simp only [List.length_cons]
      split_ifs <;> simp only [ValidRune, MaxRune, RuneError] <;> omega

/-- The bytes `AppendRune` writes for a Unicode scalar value. -/
theorem AppendRune_of_valid (r : Nat) (h : ValidRune r) :
    (r ≤ 0x7F → AppendRune r = [byte r]) ∧
    (0x7F < r → r ≤ 0x7FF → AppendRune r = [byte (192 + r / 64), byte (128 + r % 64)]) ∧
    (0x7FF < r → r ≤ 0xFFFF → AppendRune r =
      [byte (224 + r / 4096), byte (128 + r / 64 % 64), byte (128 + r % 64)]) ∧
    (0xFFFF < r → AppendRune r =
      [byte (240 + r / 262144), byte (128 + r / 4096 % 64), byte (128 + r / 64 % 64),
        byte (128 + r % 64)]) := by
  obtain ⟨hmax, hsur⟩ := h
  unfold MaxRune at hmax
  have s6 : r >>> 6 = r / 64 := Nat.shiftRight_eq_div_pow r 6
  have s12 : r >>> 12 = r / 4096 := Nat.shiftRight_eq_div_pow r 12
  refine ⟨?_, ?_, ?_, ?_⟩
  · intro h1
    simp [AppendRune, h1]
  · intro h1 h2
    have n1 : ¬ r ≤ 0x7F := by omega
    simp only [AppendRune, n1, h2, if_true, if_false, enc2 r h2, encx]
  · intro h1 h2
    have n1 : ¬ r ≤ 0x7F := by omega
    have n2 : ¬ r ≤ 0x7FF := by omega
    have n3 : ¬ (r > MaxRune ∨ (0xD800 ≤ r ∧ r ≤ 0xDFFF)) := by unfold MaxRune; omega
    simp only [AppendRune, n1, n2, n3, h2, if_true, if_false, enc3 r h2, encx, s6]
  · intro h1
    have n1 : ¬ r ≤ 0x7F := by omega
    have n2 : ¬ r ≤ 0x7FF := by omega
    have n3 : ¬ (r > MaxRune ∨ (0xD800 ≤ r ∧ r ≤ 0xDFFF)) := by unfold MaxRune; omega
    have n4 : ¬ r ≤ 0xFFFF := by omega
    simp only [AppendRune, n1, n2, n3, n4, if_false, enc4 r hmax, encx, s6, s12]

/-- Decoding what `AppendRune` wrote for a Unicode scalar value gives the
value back and consumes exactly the bytes written. -/
theorem decode_AppendRune (r : Nat) (h : ValidRune r) (rest : List Byte) :
    DecodeRuneInString (AppendRune r ++ rest) = (r, (AppendRune r).length) ∧
      1 ≤ (AppendRune r).length := by
  obtain ⟨e1, e2, e3, e4⟩ := AppendRune_of_valid r h
  obtain ⟨hmax, hsur⟩ := h
  unfold MaxRune at hmax
  by_cases h1 : r ≤ 0x7F
  · rw [e1 h1]
    have hv : (byte r).val = r := by rw [byte_val]; omega
    rw [List.singleton_append, decode_ascii _ _ (by rw [hv]; omega), hv]
    exact ⟨rfl, by simp⟩
  by_cases h2 : r ≤ 0x7FF
  · rw [e2 (by omega) h2]
    have v0 : (byte (192 + r / 64)).val = 192 + r / 64 := by rw [byte_val]; omega
    have v1 : (byte (128 + r % 64)).val = 128 + r % 64 := by rw [byte_val]; omega
    simp only [List.cons_append, List.nil_append, List.length_cons, List.length_nil]
    rw [decode_two _ _ (by rw [v0]; omega)]
    simp only [v0, v1]
    rw [if_neg (by omega)]
    refine ⟨?_, by omega⟩
    congr 1
    omega
  by_cases h3 : r ≤ 0xFFFF
  · rw [e3 (by omega) h3]
    have v0 : (byte (224 + r / 4096)).val = 224 + r / 4096 := by rw [byte_val]; omega
    have v1 : (byte (128 + r / 64 % 64)).val = 128 + r / 64 % 64 := by rw [byte_val]; omega
    have v2 : (byte (128 + r % 64)).val = 128 + r % 64 := by rw [byte_val]; omega
    simp only [List.cons_append, List.nil_append, List.length_cons, List.length_nil]
    rw [decode_three _ _ (by rw [v0]; omega)]
    simp only [v0, v1, v2]
    rw [if_neg (by split_ifs <;> omega), if_neg (by omega)]
    refine ⟨?_, by omega⟩
    congr 1
    omega
  · rw [e4 (by omega)]
    have v0 : (byte (240 + r / 262144)).val = 240 + r / 262144 := by rw [byte_val]; omega
    have v1 : (byte (128 + r / 4096 % 64)).val = 128 + r / 4096 % 64 := by
      rw [byte_val]; omega
    have v2 : (byte (128 + r / 64 % 64)).val = 128 + r / 64 % 64 := by rw [byte_val]; omega
    have v3 : (byte (128 + r % 64)).val = 128 + r % 64 := by rw [byte_val]; omega
    simp only [List.cons_append, List.nil_append, List.length_cons, List.length_nil]
    rw [decode_four _ _ (by rw [v0]; omega)]
    simp only [v0, v1, v2, v3]
    rw [if_neg (by split_ifs <;> omega), if_neg (by omega), if_neg (by omega)]
    refine ⟨?_, by omega⟩
    congr 1
    omega

/-- The encoding of a rune above `0x7F` has no byte below `0x80`, and the
encoding of a rune up to `0x7F` is that one byte. -/
theorem AppendRune_bytes (r : Nat) (h : ValidRune r) :
    (r ≤ 0x7F → AppendRune r = [byte r] ∧ (byte r).val = r) ∧
    (0x7F < r → ∀ b ∈ AppendRune r, 0x80 ≤ b.val) := by
  obtain ⟨e1, e2, e3, e4⟩ := AppendRune_of_valid r h
  obtain ⟨hmax, hsur⟩ := h
  unfold MaxRune at hmax
  refine ⟨fun h1 => ⟨e1 h1, by rw [byte_val]; omega⟩, ?_⟩
  intro h1 b hb
  by_cases h2 : r ≤ 0x7FF
  · rw [e2 h1 h2] at hb
    simp only [List.mem_cons, List.mem_singleton, List.not_mem_nil, or_false] at hb
    rcases hb with rfl | rfl <;> rw [byte_val] <;> omega
  by_cases h3 : r ≤ 0xFFFF
  · rw [e3 (by omega) h3] at hb
    simp only [List.mem_cons, List.mem_singleton, List.not_mem_nil, or_false] at hb
    rcases hb with rfl | rfl | rfl <;> rw [byte_val] <;> omega
  · rw [e4 (by omega)] at hb
    simp only [List.mem_cons, List.mem_singleton, List.not_mem_nil, or_false] at hb
    rcases hb with rfl | rfl | rfl | rfl <;> rw [byte_val] <;> omega

/-! ### `strings.ToLower` is idempotent -/

theorem unicodeToLower_props (caseTable : Nat → Nat) (h : LowerCaseTable caseTable) (r : Nat)
    (hr : ValidRune r) :
    ValidRune (unicodeToLower caseTable r) ∧
      unicodeToLower caseTable (unicodeToLower caseTable r) = unicodeToLower caseTable r ∧
      ¬ (65 ≤ unicodeToLower caseTable r ∧ unicodeToLower caseTable r ≤ 90) := by
  have key : ValidRune (unicodeToLower caseTable r) ∧
      unicodeToLower caseTable (unicodeToLower caseTable r) = unicodeToLower caseTable r := by
    by_cases h1 : r ≤ 0x7F
    · by_cases h2 : 65 ≤ r ∧ r ≤ 90
      · have e : unicodeToLower caseTable r = r + 32 := by simp [unicodeToLower, h1, h2]
        have e2 : unicodeToLower caseTable (r + 32) = r + 32 := by
          have a : r + 32 ≤ 0x7F := by omega
          have b : ¬ (65 ≤ r + 32 ∧ r + 32 ≤ 90) := by omega
          simp only [unicodeToLower, a, b, if_true, if_false]
        rw [e, e2]
        exact ⟨⟨by unfold MaxRune; omega, by omega⟩, rfl⟩
      · have e : unicodeToLower caseTable r = r := by
          simp only [unicodeToLower, h1, h2, if_true, if_false]
        rw [e, e]
        exact ⟨hr, rfl⟩
    · have e : unicodeToLower caseTable r = caseTable r := by
        simp only [unicodeToLower, h1, if_false]
      rw [e]
      exact h r (by omega) hr
  refine ⟨key.1, key.2, ?_⟩
  intro hu
  have e : unicodeToLower caseTable (unicodeToLower caseTable r)
      = unicodeToLower caseTable r + 32 := by
    have a : unicodeToLower caseTable r ≤ 0x7F := by omega
    generalize unicodeToLower caseTable r = x at hu a
    simp only [unicodeToLower, a, hu, and_self, if_true]
  rw [key.2] at e
  omega

theorem mapRunes_cons (mapping : Nat → Nat) (fuel : Nat) (c : Byte) (t : List Byte) :
    mapRunes mapping (fuel + 1) (c :: t) =
      AppendRune (mapping (DecodeRuneInString (c :: t)).1) ++
        mapRunes mapping fuel ((c :: t).drop (DecodeRuneInString (c :: t)).2) := rfl

theorem mapRunes_nil (mapping : Nat → Nat) (fuel : Nat) : mapRunes mapping fuel [] = [] := by
  cases fuel <;> rfl

/-- What `Map(unicode.ToLower, s)` returns is the encoding of runes that are
Unicode scalar values and their own lower case. -/
theorem mapRunes_shape (caseTable : Nat → Nat) (h : LowerCaseTable caseTable) (fuel : Nat)
    (s : GoString) :
    ∃ rs : List Nat, mapRunes (unicodeToLower caseTable) fuel s = rs.flatMap AppendRune ∧
      ∀ r ∈ rs, ValidRune r ∧ unicodeToLower caseTable r = r := by
  induction fuel generalizing s with
  | zero => exact ⟨[], rfl, by simp⟩
  | succ fuel ih =>
    cases s with
    | nil => exact ⟨[], rfl, by simp⟩
    | cons c t =>
      obtain ⟨rs, hrs, hfix⟩ := ih ((c :: t).drop (DecodeRuneInString (c :: t)).2)
      obtain ⟨hv, hi, _⟩ := unicodeToLower_props caseTable h _ (DecodeRuneInString_valid c t).1
      refine ⟨unicodeToLower caseTable (DecodeRuneInString (c :: t)).1 :: rs, ?_, ?_⟩
      · rw [mapRunes_cons, hrs, List.flatMap_cons]
      · intro r hr
        rcases List.mem_cons.mp hr with rfl | hr
        · exact ⟨hv, hi⟩
        · exact hfix r hr

/-- Mapping the encoding of runes that are their own lower case changes
nothing. -/
theorem mapRunes_fixed (caseTable : Nat → Nat) (rs : List Nat)
    (hfix : ∀ r ∈ rs, ValidRune r ∧ unicodeToLower caseTable r = r) (n : Nat)
    (hn : (rs.flatMap AppendRune).length ≤ n) :
    mapRunes (unicodeToLower caseTable) n (rs.flatMap AppendRune) = rs.flatMap AppendRune := by
  induction rs generalizing n with
  | nil => exact mapRunes_nil _ _
  | cons r rs ih =>
    obtain ⟨hv, hr⟩ := hfix r (List.mem_cons_self _ _)
    obtain ⟨hdec, hlen⟩ := decode_AppendRune r hv (rs.flatMap AppendRune)
    rw [List.flatMap_cons] at hn ⊢
    rw [List.length_append] at hn
    cases hs : AppendRune r ++ rs.flatMap AppendRune with
    | nil =>
      have := congrArg List.length hs
      rw [List.length_append, List.length_nil] at this
      omega
    | cons c t =>
      obtain ⟨m, rfl⟩ : ∃ m, n = m + 1 := ⟨n - 1, by omega⟩
      rw [mapRunes_cons, ← hs, hdec]
      simp only
      rw [hr, List.drop_left, ih (fun x hx => hfix x (List.mem_cons_of_mem _ hx)) m (by omega)]

theorem flatMap_AppendRune_bytes (caseTable : Nat → Nat) (rs : List Nat)
    (hfix : ∀ r ∈ rs, ValidRune r ∧ unicodeToLower caseTable r = r) :
    ∀ b ∈ rs.flatMap AppendRune, ¬ (65 ≤ b.val ∧ b.val ≤ 90) := by
  intro b hb
  rw [List.mem_flatMap] at hb
  obtain ⟨r, hr, hbr⟩ := hb
  obtain ⟨hv, hfr⟩ := hfix r hr
  obtain ⟨a1, a2⟩ := AppendRune_bytes r hv
  by_cases h1 : r ≤ 0x7F
  · obtain ⟨e, ev⟩ := a1 h1
    rw [e, List.mem_singleton] at hbr
    rw [hbr, ev]
    intro hu
    have : unicodeToLower caseTable r = r + 32 := by
      simp only [unicodeToLower, h1, hu, and_self, if_true]
    omega
  · have := a2 (by omega) b hbr
    omega

/-- What `ToLower` returns has no byte `A..Z`, and it is ASCII or the
encoding of runes that are their own lower case. -/
theorem ToLower_shape (caseTable : Nat → Nat) (h : LowerCaseTable caseTable) (s : GoString) :
    (∀ b ∈ ToLower caseTable s, ¬ (65 ≤ b.val ∧ b.val ≤ 90)) ∧
    ((ToLower caseTable s).all (fun c => decide (c.val < 0x80)) = true ∨
      ∃ rs : List Nat, ToLower caseTable s = rs.flatMap AppendRune ∧
        ∀ r ∈ rs, ValidRune r ∧ unicodeToLower caseTable r = r) := by
  unfold ToLower
  simp only
  by_cases hA : s.all (fun c => decide (c.val < 0x80)) = true
  · rw [if_pos hA]
    by_cases hU : s.any (fun c => decide (65 ≤ c.val ∧ c.val ≤ 90)) = true
    · simp only [hU, Bool.not_true, Bool.false_eq_true, if_false]
      refine ⟨?_, Or.inl ?_⟩
      · intro b hb
        rw [List.mem_map] at hb
        obtain ⟨c, _, rfl⟩ := hb
        have := c.isLt
        split_ifs with hc
        · rw [byte_val]; omega
        · exact hc
      · rw [List.all_eq_true] at hA ⊢
        intro b hb
        rw [List.mem_map] at hb
        obtain ⟨c, hc, rfl⟩ := hb
        have hc2 := hA c hc
        simp only [decide_eq_true_eq] at hc2 ⊢
        split_ifs with hu
        · rw [byte_val]; omega
        · exact hc2
    · simp only [hU, Bool.not_false, if_true]
      refine ⟨?_, Or.inl hA⟩
      intro b hb hu
      exact hU (List.any_eq_true.mpr ⟨b, hb, by simpa using hu⟩)
  · rw [if_neg hA]
    obtain ⟨rs, hrs, hfix⟩ := mapRunes_shape caseTable h s.length s
    exact ⟨by rw [hrs]; exact flatMap_AppendRune_bytes caseTable rs hfix,
      Or.inr ⟨rs, hrs, hfix⟩⟩

/-- Lower-casing a lower-cased string changes nothing. -/
theorem ToLower_idem (caseTable : Nat → Nat) (h : LowerCaseTable caseTable) (s : GoString) :
    ToLower caseTable (ToLower caseTable s) = ToLower caseTable s := by
  obtain ⟨hup, hshape⟩ := ToLower_shape caseTable h s
  generalize ToLower caseTable s = t at hup hshape
  have hU : t.any (fun c => decide (65 ≤ c.val ∧ c.val ≤ 90)) = false := by
    rw [Bool.eq_false_iff]
    intro hany
    obtain ⟨b, hb, hbu⟩ := List.any_eq_true.mp hany
    exact hup b hb (by simpa using hbu)
  unfold ToLower
  simp only [hU, Bool.not_false, if_true]
  split_ifs with hA
  · rfl
  · rcases hshape with hA2 | ⟨rs, hrs, hfix⟩
    · exact absurd hA2 hA
    · rw [hrs]
      exact mapRunes_fixed caseTable rs hfix _ (le_refl _)

theorem caseRangesExcerpt_ok : LowerCaseTable caseRangesExcerpt := by
  intro r h1 hv
  obtain ⟨hmax, hsur⟩ := hv
  unfold MaxRune at hmax
  unfold caseRangesExcerpt
  split_ifs with a b c
  · refine ⟨⟨by unfold MaxRune; omega, by omega⟩, ?_⟩
    have n1 : ¬ r + 32 ≤ 0x7F := by omega
    have n2 : ¬ ((0xC0 ≤ r + 32 ∧ r + 32 ≤ 0xD6) ∨ (0xD8 ≤ r + 32 ∧ r + 32 ≤ 0xDE)) := by omega
    have n3 : ¬ r + 32 = 0x130 := by omega
    have n4 : ¬ r + 32 = 0x212A := by omega
    simp only [unicodeToLower, caseRangesExcerpt, n1, n2, n3, n4, if_false]
  · exact ⟨by decide, by decide⟩
  · exact ⟨by decide, by decide⟩
  · refine ⟨⟨by unfold MaxRune; omega, hsur⟩, ?_⟩
    have n1 : ¬ r ≤ 0x7F := by omega
    simp only [unicodeToLower, caseRangesExcerpt, n1, a, b, c, if_false]

/-- C5: with a case table that sends Unicode scalar values to Unicode scalar
values that are their own lower case, `Extract` returns the same result, be it
a span context or an error, on a carrier and on the carrier in which every
key is replaced by its lower-cased form, values and order kept; this holds
for any pair of transforms, so for both profiles. -/
theorem Extract_lowercased_keys (caseTable : Nat → Nat) (htable : LowerCaseTable caseTable)
    (p : textMapPropagator) (w : Bool) (m : TextMap) :
    p.Extract caseTable ⟨w, true, m.map (fun kv => (ToLower caseTable kv.1, kv.2))⟩ =
      p.Extract caseTable ⟨w, true, m⟩ := by
  have hh : ∀ st k v, p.extractHandler caseTable st (ToLower caseTable k) v =
      p.extractHandler caseTable st k v := by
    intro st k v
    unfold textMapPropagator.extractHandler
    rw [ToLower_idem caseTable htable k]
  have hf : ∀ st, TextMap.ForeachKey (p.extractHandler caseTable)
      (m.map (fun kv => (ToLower caseTable kv.1, kv.2))) st =
      TextMap.ForeachKey (p.extractHandler caseTable) m st := by
    induction m with
    | nil => intro st; rfl
    | cons kv m ih =>
      intro st
      rw [List.map_cons, ForeachKey_cons, ForeachKey_cons]
      simp only [hh, ih]
  rw [Extract_reader, Extract_reader, hf]

theorem Extract_lowercased_keys_witness :
    LowerCaseTable caseRangesExcerpt ∧
    [(ascii "X-B3-TraceId", ascii "1f"), (ascii "X-B3-SpanId", ascii "2"),
        (ascii "X-B3-ParentSpanId", ascii "0"), (ascii "X-B3-Sampled", ascii "1")].map
      (fun kv => (ToLower caseRangesExcerpt kv.1, kv.2))
      = [(ascii "x-b3-traceid", ascii "1f"), (ascii "x-b3-spanid", ascii "2"),
        (ascii "x-b3-parentspanid", ascii "0"), (ascii "x-b3-sampled", ascii "1")] ∧
    newHTTPHeaderPropagator.Extract caseRangesExcerpt
        ⟨false, true, [(ascii "X-B3-TraceId", ascii "1f"), (ascii "X-B3-SpanId", ascii "2"),
          (ascii "X-B3-ParentSpanId", ascii "0"), (ascii "X-B3-Sampled", ascii "1")]⟩
      = Except.ok ⟨31, 2, 0, true⟩ ∧
    ToLower caseRangesExcerpt (ascii "X-B3-TRACE" ++ [byte 0xC4, byte 0xB0] ++ ascii "D")
      = keyTraceID ∧
    newTextMapPropagator.Extract caseRangesExcerpt
        ⟨false, true, [(ascii "X-B3-TRACE" ++ [byte 0xC4, byte 0xB0] ++ ascii "D", ascii "1f")]⟩
      = Except.ok ⟨31, 0, 0, false⟩ :=
  ⟨caseRangesExcerpt_ok, rfl,
    (Extract_lowercased_keys caseRangesExcerpt caseRangesExcerpt_ok newHTTPHeaderPropagator false
      [(ascii "X-B3-TraceId", ascii "1f"), (ascii "X-B3-SpanId", ascii "2"),
        (ascii "X-B3-ParentSpanId", ascii "0"), (ascii "X-B3-Sampled", ascii "1")]).symm.trans
      rfl,
    rfl,
    (Extract_lowercased_keys caseRangesExcerpt caseRangesExcerpt_ok newTextMapPropagator false
      [(ascii "X-B3-TRACE" ++ [byte 0xC4, byte 0xB0] ++ ascii "D", ascii "1f")]).symm.trans rfl⟩

/-! ### Capabilities, accumulated fields, the first parse error -/

/-- C12: `Inject` returns an error exactly when the carrier is not a
`TextMapWriter`; the error is then `ErrInvalidCarrier` and the carrier is
left as it was, no entry written. `Extract` on a carrier that is not a
`TextMapReader` returns `ErrInvalidCarrier`. -/
theorem carrier_capability_check (caseTable : Nat → Nat) (p : textMapPropagator)
    (sc : SpanContext) (c : AbstractCarrier) :
    ((p.Inject sc c).1 ≠ none ↔ c.isTextMapWriter = false) ∧
    (c.isTextMapWriter = false → p.Inject sc c = (some Error.ErrInvalidCarrier, c)) ∧
    (c.isTextMapReader = false →
      p.Extract caseTable c = Except.error Error.ErrInvalidCarrier) := by
  obtain ⟨w, r, m⟩ := c
  refine ⟨?_, ?_, ?_⟩
  · cases w <;> simp [textMapPropagator.Inject]
  · intro hw
    simp only at hw
    subst hw
    simp [textMapPropagator.Inject]
  · intro hr
    simp only at hr
    subst hr
    simp [textMapPropagator.Extract]

theorem carrier_capability_check_witness :
    newHTTPHeaderPropagator.Inject ⟨255, 26, 0, true⟩
        ⟨false, true, [(ascii "x-b3-traceid", ascii "1")]⟩
      = (some Error.ErrInvalidCarrier, ⟨false, true, [(ascii "x-b3-traceid", ascii "1")]⟩) ∧
    newHTTPHeaderPropagator.Extract id ⟨true, false, [(ascii "x-b3-traceid", ascii "1")]⟩
      = Except.error Error.ErrInvalidCarrier :=
  ⟨(carrier_capability_check id newHTTPHeaderPropagator ⟨255, 26, 0, true⟩
      ⟨false, true, [(ascii "x-b3-traceid", ascii "1")]⟩).2.1 rfl,
    (carrier_capability_check id newHTTPHeaderPropagator ⟨255, 26, 0, true⟩
      ⟨true, false, [(ascii "x-b3-traceid", ascii "1")]⟩).2.2 rfl⟩

theorem getLast?_cons_eq {α : Type} (a : α) (l : List α) :
    (a :: l).getLast? = some (l.getLast?.getD a) := by
  cases l with
  | nil => rfl
  | cons b l => simp [List.getLast?_cons_cons, List.getLast?_eq_getLast]

/-- The value `lastValue` finds is the parsed value of `lastEntry`. -/
theorem lastValue_eq_lastEntry (caseTable : Nat → Nat) (p : textMapPropagator)
    (key : GoString) (m : TextMap) :
    lastValue caseTable p key m =
      (lastEntry caseTable key m).map (fun kv => (ParseUint (p.decodeValue kv.2)).1) := by
  unfold lastEntry
  induction m with
  | nil => rfl
  | cons kv m ih =>
    obtain ⟨k, v⟩ := kv
    simp only [lastValue, List.filter_cons]
    rw [ih]
    by_cases hk : ToLower caseTable k = key
    · simp only [hk, decide_True, if_true, getLast?_cons_eq]
      cases (m.filter (fun kv => decide (ToLower caseTable kv.1 = key))).getLast? <;> rfl
    · simp only [hk, decide_False, if_false, Bool.false_eq_true]
      cases (m.filter (fun kv => decide (ToLower caseTable kv.1 = key))).getLast? <;> rfl

theorem lastEntry_mem (caseTable : Nat → Nat) (key : GoString) (m : TextMap)
    (kv : GoString × GoString) (h : lastEntry caseTable key m = some kv) :
    kv ∈ m ∧ ToLower caseTable kv.1 = key := by
  unfold lastEntry at h
  have hm := List.mem_of_getLast?_eq_some h
  rw [List.mem_filter] at hm
  exact ⟨hm.1, by simpa using hm.2⟩

/-- On a carrier whose numeric entries are all valid, `lastValue` is
`accumulated`. -/
theorem lastValue_getD_eq_accumulated (caseTable : Nat → Nat) (p : textMapPropagator)
    (key : GoString) (hkey : IsNumericKey key) (m : TextMap)
    (hwf : ∀ kv ∈ m, IsNumericKey (ToLower caseTable kv.1) → IsHexUint64 (p.decodeValue kv.2)) :
    (lastValue caseTable p key m).getD 0 = accumulated caseTable p key m := by
  rw [lastValue_eq_lastEntry]
  unfold accumulated
  cases hl : lastEntry caseTable key m with
  | none => rfl
  | some kv =>
    obtain ⟨hmem, hk⟩ := lastEntry_mem caseTable key m kv hl
    have hv := hwf kv hmem (by rw [hk]; exact hkey)
    simp only [Option.map_some', Option.getD_some]
    rw [ParseUint_of_valid _ hv]

theorem noParseError_of_valid (caseTable : Nat → Nat) (p : textMapPropagator) (m : TextMap)
    (hwf : ∀ kv ∈ m, IsNumericKey (ToLower caseTable kv.1) → IsHexUint64 (p.decodeValue kv.2)) :
    NoParseError caseTable p m :=
  fun kv hkv hk => (ParseUint_none_iff _).mpr (hwf kv hkv hk)

/-- C15: on a carrier in which every entry under a numeric B3 key decodes to
a valid base-16 64-bit numeral and the trace id accumulated is not zero,
`Extract` succeeds, and each of the trace id, span id and parent span id is
the value of the last entry whose lower-cased key is its name, or zero when
there is none; the sampled flag tells whether the sampled key occurs. A
carrier holding only a non-zero `x-b3-traceid` gives span id and parent span
id zero. -/
theorem Extract_accumulated (caseTable : Nat → Nat) (p : textMapPropagator) (w : Bool)
    (m : TextMap)
    (hwf : ∀ kv ∈ m, IsNumericKey (ToLower caseTable kv.1) → IsHexUint64 (p.decodeValue kv.2))
    (hnz : accumulated caseTable p keyTraceID m ≠ 0) :
    p.Extract caseTable ⟨w, true, m⟩ =
      Except.ok ⟨accumulated caseTable p keyTraceID m, accumulated caseTable p keySpanID m,
        accumulated caseTable p keyParentSpanID m, hasKey caseTable keySampled m⟩ ∧
    (∀ v, m = [(keyTraceID, v)] →
      p.Extract caseTable ⟨w, true, m⟩ =
        Except.ok ⟨hexValue (p.decodeValue v), 0, 0, false⟩) := by
  have hres : p.Extract caseTable ⟨w, true, m⟩ =
      Except.ok ⟨accumulated caseTable p keyTraceID m, accumulated caseTable p keySpanID m,
        accumulated caseTable p keyParentSpanID m, hasKey caseTable keySampled m⟩ := by
    rw [Extract_of_noParseError caseTable p w m (noParseError_of_valid caseTable p m hwf),
      lastValue_getD_eq_accumulated caseTable p keyTraceID (Or.inl rfl) m hwf,
      lastValue_getD_eq_accumulated caseTable p keySpanID (Or.inr (Or.inr rfl)) m hwf,
      lastValue_getD_eq_accumulated caseTable p keyParentSpanID (Or.inr (Or.inl rfl)) m hwf,
      if_neg hnz]
    rfl
  refine ⟨hres, ?_⟩
  intro v hm
  rw [hres, hm]
  rfl

theorem Extract_accumulated_witness :
    accumulated id newHTTPHeaderPropagator keyTraceID
        [(ascii "X-B3-SpanId", ascii "1"), (ascii "x-b3-traceid", ascii "00fF"),
          (ascii "x-b3-spanid", ascii "2a")] ≠ 0 ∧
    newHTTPHeaderPropagator.Extract id
        ⟨false, true, [(ascii "X-B3-SpanId", ascii "1"), (ascii "x-b3-traceid", ascii "00fF"),
          (ascii "x-b3-spanid", ascii "2a")]⟩
      = Except.ok ⟨255, 42, 0, false⟩ :=
  ⟨by decide,
    (Extract_accumulated id newHTTPHeaderPropagator false
      [(ascii "X-B3-SpanId", ascii "1"), (ascii "x-b3-traceid", ascii "00fF"),
        (ascii "x-b3-spanid", ascii "2a")] (by decide) (by decide)).1.trans rfl⟩

/-- The iteration stops at an entry that fails to parse when no entry
before it does, and returns that entry's error. -/
theorem Extract_at_first_error (caseTable : Nat → Nat) (p : textMapPropagator) (w : Bool)
    (front back : TextMap) (k v : GoString) (e : Error)
    (hfront : NoParseError caseTable p front) (hk : IsNumericKey (ToLower caseTable k))
    (he : (ParseUint (p.decodeValue v)).2 = some e) :
    p.Extract caseTable ⟨w, true, front ++ (k, v) :: back⟩ = Except.error e := by
  rw [Extract_reader, ForeachKey_append, ForeachKey_ok caseTable p front _ hfront]
  simp only
  rw [ForeachKey_cons]
  have herr := extractHandler_err caseTable p
    { traceID := (lastValue caseTable p keyTraceID front).getD 0
      spanID := (lastValue caseTable p keySpanID front).getD 0
      parentID := (lastValue caseTable p keyParentSpanID front).getD 0
      sampled := false || hasKey caseTable keySampled front } k v
  rw [if_pos hk, he] at herr
  simp only [herr]

/-- A carrier with an entry that fails to parse splits at the first such
entry. -/
theorem exists_first_parse_error (caseTable : Nat → Nat) (p : textMapPropagator) (m : TextMap)
    (h : ¬ NoParseError caseTable p m) :
    ∃ front k v back e, m = front ++ (k, v) :: back ∧ NoParseError caseTable p front ∧
      IsNumericKey (ToLower caseTable k) ∧ (ParseUint (p.decodeValue v)).2 = some e := by
  induction m with
  | nil => exact absurd (fun kv hkv => absurd hkv (List.not_mem_nil _)) h
  | cons kv m ih =>
    obtain ⟨k, v⟩ := kv
    by_cases hbad : IsNumericKey (ToLower caseTable k) ∧ (ParseUint (p.decodeValue v)).2 ≠ none
    · obtain ⟨hk, hne⟩ := hbad
      obtain ⟨e, he⟩ := Option.ne_none_iff_exists'.mp hne
      exact ⟨[], k, v, m, e, rfl, fun kv hkv => absurd hkv (List.not_mem_nil _), hk, he⟩
    · have hm : ¬ NoParseError caseTable p m := by
        intro hno
        apply h
        intro x hx hnum
        rcases List.mem_cons.mp hx with rfl | hx
        · by_contra hc
          exact hbad ⟨hnum, hc⟩
        · exact hno x hx hnum
      obtain ⟨front, k2, v2, back, e, hsplit, hfront, hk2, he⟩ := ih hm
      refine ⟨(k, v) :: front, k2, v2, back, e, by rw [hsplit]; rfl, ?_, hk2, he⟩
      intro x hx hnum
      rcases List.mem_cons.mp hx with rfl | hx
      · by_contra hc
        exact hbad ⟨hnum, hc⟩
      · exact hfront x hx hnum

/-- C16: a carrier with at least one entry under a numeric B3 key whose
decoded value fails to parse has a first such entry, and `Extract` fails
with the error `ParseUint` returns for that entry, whatever entries follow
it. -/
theorem Extract_early_abort (caseTable : Nat → Nat) (p : textMapPropagator) (w : Bool)
    (m : TextMap) (k0 v0 : GoString) (hmem : (k0, v0) ∈ m)
    (hk0 : IsNumericKey (ToLower caseTable k0))
    (hbad : (ParseUint (p.decodeValue v0)).2 ≠ none) :
    ∃ front k v back e, m = front ++ (k, v) :: back ∧ NoParseError caseTable p front ∧
      IsNumericKey (ToLower caseTable k) ∧ (ParseUint (p.decodeValue v)).2 = some e ∧
      p.Extract caseTable ⟨w, true, m⟩ = Except.error e ∧
      ∀ others, p.Extract caseTable ⟨w, true, front ++ (k, v) :: others⟩ = Except.error e := by
  have hn : ¬ NoParseError caseTable p m := fun hno => hbad (hno (k0, v0) hmem hk0)
  obtain ⟨front, k, v, back, e, hsplit, hfront, hk, he⟩ :=
    exists_first_parse_error caseTable p m hn
  refine ⟨front, k, v, back, e, hsplit, hfront, hk, he, ?_, ?_⟩
  · rw [hsplit]
    exact Extract_at_first_error caseTable p w front back k v e hfront hk he
  · intro others
    exact Extract_at_first_error caseTable p w front others k v e hfront hk he

theorem Extract_early_abort_witness :
    ((ascii "x-b3-spanid", ascii "zz") ∈
        [(ascii "x-b3-traceid", ascii "1"), (ascii "X-B3-SpanId", ascii "10000000000000000"),
          (ascii "x-b3-spanid", ascii "zz"), (ascii "x-b3-spanid", ascii "2")] ∧
      IsNumericKey (ToLower id (ascii "x-b3-spanid")) ∧
      (ParseUint (newTextMapPropagator.decodeValue (ascii "zz"))).2 ≠ none) ∧
    newTextMapPropagator.Extract id
        ⟨false, true, [(ascii "x-b3-traceid", ascii "1"),
          (ascii "X-B3-SpanId", ascii "10000000000000000"),
          (ascii "x-b3-spanid", ascii "zz"), (ascii "x-b3-spanid", ascii "2")]⟩
      = Except.error (Error.NumError fnParseUint (ascii "10000000000000000")
          NumErrKind.ErrRange) ∧
    ∃ front k v back e,
      [(ascii "x-b3-traceid", ascii "1"), (ascii "X-B3-SpanId", ascii "10000000000000000"),
          (ascii "x-b3-spanid", ascii "zz"), (ascii "x-b3-spanid", ascii "2")]
        = front ++ (k, v) :: back ∧
      NoParseError id newTextMapPropagator front ∧ IsNumericKey (ToLower id k) ∧
      (ParseUint (newTextMapPropagator.decodeValue v)).2 = some e ∧
      newTextMapPropagator.Extract id
        ⟨false, true, [(ascii "x-b3-traceid", ascii "1"),
          (ascii "X-B3-SpanId", ascii "10000000000000000"),
          (ascii "x-b3-spanid", ascii "zz"), (ascii "x-b3-spanid", ascii "2")]⟩
        = Except.error e ∧
      ∀ others, newTextMapPropagator.Extract id ⟨false, true, front ++ (k, v) :: others⟩
        = Except.error e :=
  ⟨⟨by decide, by decide, by decide⟩, rfl,
    Extract_early_abort id newTextMapPropagator false
      [(ascii "x-b3-traceid", ascii "1"), (ascii "X-B3-SpanId", ascii "10000000000000000"),
        (ascii "x-b3-spanid", ascii "zz"), (ascii "x-b3-spanid", ascii "2")]
      (ascii "x-b3-spanid") (ascii "zz") (by decide) (by decide) (by decide)⟩

/-- C13, as the code has it: when `Extract` fails with a parse error, the
error is the `NumError` that `ParseUint` returned for the first entry that
fails to parse. It holds the function name `ParseUint` and the value of that
entry after `decodeValue`, which under the plain profile is the value as
read from the carrier; the key is not part of it. -/
theorem parse_error_payload (caseTable : Nat → Nat) (p : textMapPropagator) (w : Bool)
    (m : TextMap) (fn num : GoString) (kind : NumErrKind)
    (h : p.Extract caseTable ⟨w, true, m⟩ = Except.error (Error.NumError fn num kind)) :
    ∃ front k v back, m = front ++ (k, v) :: back ∧ NoParseError caseTable p front ∧
      IsNumericKey (ToLower caseTable k) ∧
      (ParseUint (p.decodeValue v)).2 = some (Error.NumError fn num kind) ∧
      (Error.NumError fn num kind).fields = [fnParseUint, p.decodeValue v] ∧
      (p = newTextMapPropagator → num = v) := by
  have hn : ¬ NoParseError caseTable p m := by
    intro hno
    rw [Extract_of_noParseError caseTable p w m hno] at h
    split_ifs at h
    simp only [Except.error.injEq] at h
    exact Error.noConfusion h
  obtain ⟨front, k, v, back, e, hsplit, hfront, hk, he⟩ :=
    exists_first_parse_error caseTable p m hn
  have hres := Extract_at_first_error caseTable p w front back k v e hfront hk he
  rw [← hsplit, h] at hres
  simp only [Except.error.injEq] at hres
  subst hres
  obtain ⟨kind2, hkind⟩ := ParseUint_err _ _ he
  simp only [Error.NumError.injEq] at hkind
  obtain ⟨hfn, hnum, _⟩ := hkind
  refine ⟨front, k, v, back, hsplit, hfront, hk, he, ?_, ?_⟩
  · simp only [Error.fields, hfn, hnum]
  · intro hp
    rw [hnum, hp]
    rfl

theorem parse_error_payload_witness :
    newHTTPHeaderPropagator.Extract id
        ⟨false, true, [(ascii "x-b3-traceid", ascii "1"), (ascii "X-B3-SpanId", ascii "%7A")]⟩
      = Except.error (Error.NumError fnParseUint (ascii "z") NumErrKind.ErrSyntax) ∧
    ∃ front k v back,
      [(ascii "x-b3-traceid", ascii "1"), (ascii "X-B3-SpanId", ascii "%7A")]
        = front ++ (k, v) :: back ∧
      NoParseError id newHTTPHeaderPropagator front ∧ IsNumericKey (ToLower id k) ∧
      (ParseUint (newHTTPHeaderPropagator.decodeValue v)).2
        = some (Error.NumError fnParseUint (ascii "z") NumErrKind.ErrSyntax) ∧
      (Error.NumError fnParseUint (ascii "z") NumErrKind.ErrSyntax).fields
        = [fnParseUint, newHTTPHeaderPropagator.decodeValue v] ∧
      (newHTTPHeaderPropagator = newTextMapPropagator → ascii "z" = v) :=
  ⟨rfl, parse_error_payload id newHTTPHeaderPropagator false
    [(ascii "x-b3-traceid", ascii "1"), (ascii "X-B3-SpanId", ascii "%7A")]
    fnParseUint (ascii "z") NumErrKind.ErrSyntax rfl⟩

/-- C13 fails as stated: under the header-safe profile the carrier holding
`"%7A"` under `X-B3-SpanId` makes `Extract` return a `NumError` whose strings
are `"ParseUint"` and the decoded value `"z"`; neither the key nor the value
as read from the carrier is among them. Under the plain profile the value is
there and the key is not. -/
theorem parse_error_payload_counterexample :
    newHTTPHeaderPropagator.Extract id ⟨false, true, [(ascii "X-B3-SpanId", ascii "%7A")]⟩
      = Except.error (Error.NumError fnParseUint (ascii "z") NumErrKind.ErrSyntax) ∧
    ascii "X-B3-SpanId" ∉ (Error.NumError fnParseUint (ascii "z") NumErrKind.ErrSyntax).fields ∧
    ascii "x-b3-spanid" ∉ (Error.NumError fnParseUint (ascii "z") NumErrKind.ErrSyntax).fields ∧
    ascii "%7A" ∉ (Error.NumError fnParseUint (ascii "z") NumErrKind.ErrSyntax).fields ∧
    newTextMapPropagator.Extract id ⟨false, true, [(ascii "X-B3-SpanId", ascii "zz")]⟩
      = Except.error (Error.NumError fnParseUint (ascii "zz") NumErrKind.ErrSyntax) ∧
    ascii "X-B3-SpanId" ∉ (Error.NumError fnParseUint (ascii "zz") NumErrKind.ErrSyntax).fields ∧
    ascii "x-b3-spanid" ∉ (Error.NumError fnParseUint (ascii "zz") NumErrKind.ErrSyntax).fields :=
  ⟨rfl, by decide, by decide, by decide, rfl, by decide, by decide⟩

/-! ### Order of the entries -/

theorem hasKey_perm (caseTable : Nat → Nat) (key : GoString) (l1 l2 : TextMap)
    (h : l1.Perm l2) : hasKey caseTable key l1 = hasKey caseTable key l2 := by
  unfold hasKey
  rw [Bool.eq_iff_iff, List.any_eq_true, List.any_eq_true]
  constructor
  · rintro ⟨x, hx, hp⟩; exact ⟨x, h.mem_iff.mp hx, hp⟩
  · rintro ⟨x, hx, hp⟩; exact ⟨x, h.mem_iff.mpr hx, hp⟩

/-- When the entries under `key` all parse to one value, the last value
under `key` does not depend on the order of the entries. -/
theorem lastValue_perm (caseTable : Nat → Nat) (p : textMapPropagator) (key : GoString)
    (l1 l2 : TextMap) (h : l1.Perm l2)
    (hsame : ∀ kv1 ∈ l1, ∀ kv2 ∈ l1, ToLower caseTable kv1.1 = key →
      ToLower caseTable kv2.1 = key →
      (ParseUint (p.decodeValue kv1.2)).1 = (ParseUint (p.decodeValue kv2.2)).1) :
    lastValue caseTable p key l2 = lastValue caseTable p key l1 := by
  cases hk : hasKey caseTable key l1 with
  | false =>
    rw [(lastValue_eq_none_iff caseTable p key l1).mpr hk,
      (lastValue_eq_none_iff caseTable p key l2).mpr (by rw [← hasKey_perm _ _ _ _ h]; exact hk)]
  | true =>
    have hk1 := hk
    unfold hasKey at hk1
    obtain ⟨kv, hkv, hkey⟩ := List.any_eq_true.mp hk1
    simp only [decide_eq_true_eq] at hkey
    rw [lastValue_of_all caseTable p key (ParseUint (p.decodeValue kv.2)).1 l1 hk
        (fun x hx hxk => hsame x hx kv hkv hxk hkey),
      lastValue_of_all caseTable p key (ParseUint (p.decodeValue kv.2)).1 l2
        (by rw [← hasKey_perm _ _ _ _ h]; exact hk)
        (fun x hx hxk => hsame x (h.mem_iff.mpr hx) kv hkv hxk hkey)]

/-- C11, as the code has it: on a carrier in which all four B3 keys are
present, every value under a numeric key is well formed, and the entries
whose keys lower-case to the same numeric key parse to the same value,
`Extract` returns the same result for every reordering of the entries: not
found when the trace id is zero, and otherwise the context made of the value
under each key, with `sampled` true. -/
theorem Extract_order_independent (caseTable : Nat → Nat) (p : textMapPropagator) (w : Bool)
    (l1 l2 : TextMap) (hperm : l1.Perm l2) (hwf : NoParseError caseTable p l1)
    (hT : hasKey caseTable keyTraceID l1 = true) (hP : hasKey caseTable keyParentSpanID l1 = true)
    (hS : hasKey caseTable keySpanID l1 = true) (hSm : hasKey caseTable keySampled l1 = true)
    (hsame : ∀ kv1 ∈ l1, ∀ kv2 ∈ l1, IsNumericKey (ToLower caseTable kv1.1) →
      ToLower caseTable kv1.1 = ToLower caseTable kv2.1 →
      (ParseUint (p.decodeValue kv1.2)).1 = (ParseUint (p.decodeValue kv2.2)).1) :
    p.Extract caseTable ⟨w, true, l2⟩ = p.Extract caseTable ⟨w, true, l1⟩ ∧
    (p.Extract caseTable ⟨w, true, l1⟩ = Except.error Error.ErrSpanContextNotFound ∨
      ∃ sc, p.Extract caseTable ⟨w, true, l1⟩ = Except.ok sc ∧ sc.sampled = true ∧
        (∀ kv ∈ l1, ToLower caseTable kv.1 = keyTraceID →
          (ParseUint (p.decodeValue kv.2)).1 = sc.traceID) ∧
        (∀ kv ∈ l1, ToLower caseTable kv.1 = keySpanID →
          (ParseUint (p.decodeValue kv.2)).1 = sc.spanID) ∧
        (∀ kv ∈ l1, ToLower caseTable kv.1 = keyParentSpanID →
          (ParseUint (p.decodeValue kv.2)).1 = sc.parentID)) := by
  have hwf2 : NoParseError caseTable p l2 := fun kv hkv hk => hwf kv (hperm.mem_iff.mpr hkv) hk
  have hkeyed : ∀ key, IsNumericKey key → ∀ kv1 ∈ l1, ∀ kv2 ∈ l1,
      ToLower caseTable kv1.1 = key → ToLower caseTable kv2.1 = key →
      (ParseUint (p.decodeValue kv1.2)).1 = (ParseUint (p.decodeValue kv2.2)).1 := by
    intro key hkey kv1 h1 kv2 h2 e1 e2
    exact hsame kv1 h1 kv2 h2 (by rw [e1]; exact hkey) (by rw [e1, e2])
  have kT : IsNumericKey keyTraceID := Or.inl rfl
  have kP : IsNumericKey keyParentSpanID := Or.inr (Or.inl rfl)
  have kS : IsNumericKey keySpanID := Or.inr (Or.inr rfl)
  have hval : ∀ key, IsNumericKey key → hasKey caseTable key l1 = true →
      ∀ kv ∈ l1, ToLower caseTable kv.1 = key →
        (ParseUint (p.decodeValue kv.2)).1 = (lastValue caseTable p key l1).getD 0 := by
    intro key hkey hk kv hkv hkk
    rw [lastValue_of_all caseTable p key (ParseUint (p.decodeValue kv.2)).1 l1 hk
      (fun x hx hxk => hkeyed key hkey x hx kv hkv hxk hkk)]
    rfl
  refine ⟨?_, ?_⟩
  · rw [Extract_of_noParseError caseTable p w l1 hwf,
      Extract_of_noParseError caseTable p w l2 hwf2,
      lastValue_perm caseTable p keyTraceID l1 l2 hperm (hkeyed _ kT),
      lastValue_perm caseTable p keySpanID l1 l2 hperm (hkeyed _ kS),
      lastValue_perm caseTable p keyParentSpanID l1 l2 hperm (hkeyed _ kP),
      ← hasKey_perm caseTable keySampled l1 l2 hperm]
  · rw [Extract_of_noParseError caseTable p w l1 hwf]
    by_cases h0 : (lastValue caseTable p keyTraceID l1).getD 0 = 0
    · left; rw [if_pos h0]
    · right
      rw [if_neg h0]
      exact ⟨_, rfl, hSm, hval _ kT hT, hval _ kS hS, hval _ kP hP⟩

theorem Extract_order_independent_witness :
    ([(ascii "X-B3-Sampled", ascii "0"), (ascii "x-b3-traceid", ascii "1f"),
        (ascii "X-B3-TraceId", ascii "01F"), (ascii "x-b3-spanid", ascii "2"),
        (ascii "x-b3-parentspanid", ascii "0")].Perm
      [(ascii "x-b3-traceid", ascii "1f"), (ascii "X-B3-Sampled", ascii "0"),
        (ascii "X-B3-TraceId", ascii "01F"), (ascii "x-b3-spanid", ascii "2"),
        (ascii "x-b3-parentspanid", ascii "0")]) ∧
    newHTTPHeaderPropagator.Extract id
        ⟨false, true, [(ascii "x-b3-traceid", ascii "1f"), (ascii "X-B3-Sampled", ascii "0"),
          (ascii "X-B3-TraceId", ascii "01F"), (ascii "x-b3-spanid", ascii "2"),
          (ascii "x-b3-parentspanid", ascii "0")]⟩
      = Except.ok ⟨31, 2, 0, true⟩ :=
  ⟨List.Perm.swap _ _ _,
    (Extract_order_independent id newHTTPHeaderPropagator false
      [(ascii "X-B3-Sampled", ascii "0"), (ascii "x-b3-traceid", ascii "1f"),
        (ascii "X-B3-TraceId", ascii "01F"), (ascii "x-b3-spanid", ascii "2"),
        (ascii "x-b3-parentspanid", ascii "0")]
      [(ascii "x-b3-traceid", ascii "1f"), (ascii "X-B3-Sampled", ascii "0"),
        (ascii "X-B3-TraceId", ascii "01F"), (ascii "x-b3-spanid", ascii "2"),
        (ascii "x-b3-parentspanid", ascii "0")]
      (List.Perm.swap _ _ _) (by unfold NoParseError; decide) (by decide) (by decide)
      (by decide) (by decide) (by decide)).1.trans rfl⟩

/-- C11 fails as stated: with `"1"` under `x-b3-traceid` and `"2"` under
`X-B3-TraceId`, all four B3 keys present and every value well formed,
`Extract` returns trace id 2, and trace id 1 once the two entries are
swapped. -/
theorem Extract_order_independent_counterexample :
    ([(ascii "X-B3-TraceId", ascii "2"), (ascii "x-b3-traceid", ascii "1"),
        (ascii "x-b3-spanid", ascii "3"), (ascii "x-b3-parentspanid", ascii "4"),
        (ascii "x-b3-sampled", ascii "1")].Perm
      [(ascii "x-b3-traceid", ascii "1"), (ascii "X-B3-TraceId", ascii "2"),
        (ascii "x-b3-spanid", ascii "3"), (ascii "x-b3-parentspanid", ascii "4"),
        (ascii "x-b3-sampled", ascii "1")]) ∧
    NoParseError id newTextMapPropagator
      [(ascii "x-b3-traceid", ascii "1"), (ascii "X-B3-TraceId", ascii "2"),
        (ascii "x-b3-spanid", ascii "3"), (ascii "x-b3-parentspanid", ascii "4"),
        (ascii "x-b3-sampled", ascii "1")] ∧
    (∀ key ∈ [keyTraceID, keyParentSpanID, keySpanID, keySampled],
      hasKey id key [(ascii "x-b3-traceid", ascii "1"), (ascii "X-B3-TraceId", ascii "2"),
        (ascii "x-b3-spanid", ascii "3"), (ascii "x-b3-parentspanid", ascii "4"),
        (ascii "x-b3-sampled", ascii "1")] = true) ∧
    newTextMapPropagator.Extract id
        ⟨false, true, [(ascii "x-b3-traceid", ascii "1"), (ascii "X-B3-TraceId", ascii "2"),
          (ascii "x-b3-spanid", ascii "3"), (ascii "x-b3-parentspanid", ascii "4"),
          (ascii "x-b3-sampled", ascii "1")]⟩
      = Except.ok ⟨2, 3, 4, true⟩ ∧
    newTextMapPropagator.Extract id
        ⟨false, true, [(ascii "X-B3-TraceId", ascii "2"), (ascii "x-b3-traceid", ascii "1"),
          (ascii "x-b3-spanid", ascii "3"), (ascii "x-b3-parentspanid", ascii "4"),
          (ascii "x-b3-sampled", ascii "1")]⟩
      = Except.ok ⟨1, 3, 4, true⟩ ∧
    newTextMapPropagator.Extract id
        ⟨false, true, [(ascii "X-B3-TraceId", ascii "2"), (ascii "x-b3-traceid", ascii "1"),
          (ascii "x-b3-spanid", ascii "3"), (ascii "x-b3-parentspanid", ascii "4"),
          (ascii "x-b3-sampled", ascii "1")]⟩
      ≠ newTextMapPropagator.Extract id
        ⟨false, true, [(ascii "x-b3-traceid", ascii "1"), (ascii "X-B3-TraceId", ascii "2"),
          (ascii "x-b3-spanid", ascii "3"), (ascii "x-b3-parentspanid", ascii "4"),
          (ascii "x-b3-sampled", ascii "1")]⟩ :=
  ⟨List.Perm.swap _ _ _, by unfold NoParseError; decide, by decide, rfl, rfl,
    fun h => by
      have h2 : (Except.ok ⟨1, 3, 4, true⟩ : Except Error SpanContext)
          = Except.ok ⟨2, 3, 4, true⟩ := h
      simp at h2⟩

/-! ### The two profiles side by side -/

theorem hex_byte_cases : ∀ c : Byte,
    ((hexDigitVal c).isSome = true → shouldEscape c = false ∧ c.val ≠ 37) ∧
    (ishex c = true → c.val ≠ 37) := by
  decide

/-- Percent-encoding leaves `FormatUint` of a 64-bit value as it is. -/
theorem QueryEscape_FormatUint (n : Nat) (h : n < 2 ^ 64) :
    QueryEscape (FormatUint n) = FormatUint n := by
  apply QueryEscape_of_unreserved
  intro c hc
  exact ((hex_byte_cases c).1 (lowerHex_isSome c ((FormatUint_spec n h).2.1 c hc))).1

/-- Percent-decoding leaves a string of hexadecimal digits as it is. -/
theorem http_decode_of_hex (s : GoString) (h : ∀ c ∈ s, (hexDigitVal c).isSome = true) :
    newHTTPHeaderPropagator.decodeValue s = s := by
  simp only [newHTTPHeaderPropagator]
  rw [QueryUnescape_of_unreserved s (fun c hc => ((hex_byte_cases c).1 (h c hc)).1)]

/-- C18: for every trace context with 64-bit ids and every carrier, `Inject`
under the header-safe profile returns what `Inject` under the plain profile
returns, error and carrier alike, because `QueryEscape` returns a lower-case
hexadecimal numeral and the string `"1"` as they are. -/
theorem Inject_profiles_agree (sc : SpanContext) (c : AbstractCarrier)
    (ht : sc.traceID < 2 ^ 64) (hs : sc.spanID < 2 ^ 64) (hp : sc.parentID < 2 ^ 64) :
    newHTTPHeaderPropagator.Inject sc c = newTextMapPropagator.Inject sc c ∧
    newHTTPHeaderPropagator.encodeValue (FormatUint sc.traceID) = FormatUint sc.traceID ∧
    newHTTPHeaderPropagator.encodeValue (FormatUint sc.spanID) = FormatUint sc.spanID ∧
    newHTTPHeaderPropagator.encodeValue (FormatUint sc.parentID) = FormatUint sc.parentID ∧
    newHTTPHeaderPropagator.encodeValue (ascii "1") = ascii "1" := by
  have e1 : newHTTPHeaderPropagator.encodeValue (FormatUint sc.traceID)
      = FormatUint sc.traceID := QueryEscape_FormatUint _ ht
  have e2 : newHTTPHeaderPropagator.encodeValue (FormatUint sc.spanID)
      = FormatUint sc.spanID := QueryEscape_FormatUint _ hs
  have e3 : newHTTPHeaderPropagator.encodeValue (FormatUint sc.parentID)
      = FormatUint sc.parentID := QueryEscape_FormatUint _ hp
  have e4 : newHTTPHeaderPropagator.encodeValue (ascii "1") = ascii "1" := by decide
  refine ⟨?_, e1, e2, e3, e4⟩
  unfold textMapPropagator.Inject
  rw [e1, e2, e3, e4]
  rfl

theorem Inject_profiles_agree_witness :
    (⟨18446744073709551615, 26, 0, true⟩ : SpanContext).traceID < 2 ^ 64 ∧
    newHTTPHeaderPropagator.Inject ⟨18446744073709551615, 26, 0, true⟩
        ⟨true, false, [(ascii "x-b3-sampled", ascii "yes")]⟩
      = (none, ⟨true, false, [(ascii "x-b3-sampled", ascii "1"),
          (ascii "x-b3-traceid", ascii "ffffffffffffffff"),
          (ascii "x-b3-parentspanid", ascii "0"), (ascii "x-b3-spanid", ascii "1a")]⟩) :=
  ⟨by decide,
    (Inject_profiles_agree ⟨18446744073709551615, 26, 0, true⟩
      ⟨true, false, [(ascii "x-b3-sampled", ascii "yes")]⟩ (by decide) (by decide)
      (by decide)).1.trans rfl⟩

theorem lastValue_congr (caseTable : Nat → Nat) (p1 p2 : textMapPropagator) (key : GoString)
    (m : TextMap)
    (h : ∀ kv ∈ m, ToLower caseTable kv.1 = key →
      ParseUint (p1.decodeValue kv.2) = ParseUint (p2.decodeValue kv.2)) :
    lastValue caseTable p1 key m = lastValue caseTable p2 key m := by
  induction m with
  | nil => rfl
  | cons kv m ih =>
    obtain ⟨k, v⟩ := kv
    simp only [lastValue]
    rw [ih (fun x hx => h x (List.mem_cons_of_mem _ hx))]
    by_cases hk : ToLower caseTable k = key
    · rw [h (k, v) (List.mem_cons_self _ _) hk]
    · simp only [hk, if_false]

/-- C19: on every carrier on which `Extract` under the plain profile does
not return a parse error, so that it succeeds or returns one of the two
sentinel errors, `Extract` under the header-safe profile returns the same
result. -/
theorem Extract_profiles_agree (caseTable : Nat → Nat) (c : AbstractCarrier)
    (h : ∀ fn num kind,
      newTextMapPropagator.Extract caseTable c ≠ Except.error (Error.NumError fn num kind)) :
    newHTTPHeaderPropagator.Extract caseTable c = newTextMapPropagator.Extract caseTable c := by
  obtain ⟨w, r, m⟩ := c
  cases r with
  | false => rfl
  | true =>
    have hno : NoParseError caseTable newTextMapPropagator m := by
      by_contra hn
      obtain ⟨num, kind, he⟩ := Extract_of_parseError caseTable newTextMapPropagator w m hn
      exact h _ _ _ he
    have hdec : ∀ kv ∈ m, IsNumericKey (ToLower caseTable kv.1) →
        newHTTPHeaderPropagator.decodeValue kv.2 = newTextMapPropagator.decodeValue kv.2 := by
      intro kv hkv hk
      have hv : IsHexUint64 kv.2 := (ParseUint_none_iff _).mp (hno kv hkv hk)
      exact http_decode_of_hex kv.2 hv.2.1
    have hno2 : NoParseError caseTable newHTTPHeaderPropagator m := by
      intro kv hkv hk
      rw [hdec kv hkv hk]
      exact hno kv hkv hk
    have hl : ∀ key, IsNumericKey key →
        lastValue caseTable newHTTPHeaderPropagator key m
          = lastValue caseTable newTextMapPropagator key m := by
      intro key hkey
      apply lastValue_congr
      intro kv hkv hk
      rw [hdec kv hkv (by rw [hk]; exact hkey)]
    rw [Extract_of_noParseError caseTable _ w m hno, Extract_of_noParseError caseTable _ w m hno2,
      hl _ (Or.inl rfl), hl _ (Or.inr (Or.inl rfl)), hl _ (Or.inr (Or.inr rfl))]

theorem Extract_profiles_agree_witness :
    (∀ fn num kind, newTextMapPropagator.Extract id
        ⟨false, true, [(ascii "X-B3-TraceId", ascii "00fF"), (ascii "x-b3-sampled", ascii "%zz"),
          (ascii "x-other", ascii "%41%")]⟩
      ≠ Except.error (Error.NumError fn num kind)) ∧
    newHTTPHeaderPropagator.Extract id
        ⟨false, true, [(ascii "X-B3-TraceId", ascii "00fF"), (ascii "x-b3-sampled", ascii "%zz"),
          (ascii "x-other", ascii "%41%")]⟩
      = Except.ok ⟨255, 0, 0, true⟩ :=
  have hplain : ∀ fn num kind, newTextMapPropagator.Extract id
        ⟨false, true, [(ascii "X-B3-TraceId", ascii "00fF"), (ascii "x-b3-sampled", ascii "%zz"),
          (ascii "x-other", ascii "%41%")]⟩
      ≠ Except.error (Error.NumError fn num kind) := by
    intro fn num kind hh
    have h2 : (Except.ok ⟨255, 0, 0, true⟩ : Except Error SpanContext)
        = Except.error (Error.NumError fn num kind) := hh
    exact Except.noConfusion h2
  ⟨hplain, (Extract_profiles_agree id _ hplain).trans rfl⟩

/-! ### Injecting twice -/

/-- Injecting a second context after a first, into an empty carrier, leaves
the carrier as injecting the second context with the two sampled flags
joined. -/
theorem Inject_twice (p : textMapPropagator) (c1 c2 : SpanContext) (r : Bool) :
    p.Inject c2 (p.Inject c1 ⟨true, r, []⟩).2 =
      p.Inject ⟨c2.traceID, c2.spanID, c2.parentID, c1.sampled || c2.sampled⟩
        ⟨true, r, []⟩ := by
  obtain ⟨d1, d2, d3, d4, d5, d6⟩ := keys_distinct
  rw [Inject_empty_entries, Inject_empty_entries]
  simp only
  rw [Inject_writer p c2 _ rfl]
  cases c1.sampled <;> cases c2.sampled <;>
    simp [TextMap.Set, d1, d2, d3, d4, d5, d6, d1.symm, d2.symm, d3.symm, d4.symm, d5.symm,
      d6.symm]

/-- C20: for either profile and all trace contexts `c1` and `c2`, `c2` with
64-bit ids and a trace id other than zero, `Inject` of `c1` and then of `c2`
into an empty carrier followed by `Extract` (reading the entries in any
order) gives the trace id, span id and parent span id of `c2` and the
sampled flag `c1.sampled || c2.sampled`; when `c1` is sampled and `c2` is
not, the carrier still holds `encodeValue "1"` under `x-b3-sampled`. -/
theorem Inject_twice_Extract (caseTable : Nat → Nat) (p : textMapPropagator)
    (c1 c2 : SpanContext) (hprofile : p = newTextMapPropagator ∨ p = newHTTPHeaderPropagator)
    (h0 : c2.traceID ≠ 0) (ht : c2.traceID < 2 ^ 64) (hs : c2.spanID < 2 ^ 64)
    (hp : c2.parentID < 2 ^ 64) :
    (p.Inject c2 (p.Inject c1 ⟨true, true, []⟩).2).1 = none ∧
    p.Extract caseTable (p.Inject c2 (p.Inject c1 ⟨true, true, []⟩).2).2 =
      Except.ok ⟨c2.traceID, c2.spanID, c2.parentID, c1.sampled || c2.sampled⟩ ∧
    (∀ l, l.Perm (p.Inject c2 (p.Inject c1 ⟨true, true, []⟩).2).2.entries →
      p.Extract caseTable ⟨true, true, l⟩ =
        Except.ok ⟨c2.traceID, c2.spanID, c2.parentID, c1.sampled || c2.sampled⟩) ∧
    (c1.sampled = true → c2.sampled = false →
      (p.Inject c2 (p.Inject c1 ⟨true, true, []⟩).2).2.entries.Get keySampled
        = some (p.encodeValue (ascii "1"))) := by
  have hinv : ∀ s, p.decodeValue (p.encodeValue s) = s := by
    intro s
    rcases hprofile with rfl | rfl
    · rfl
    · exact http_decode_of_encode s
  rw [Inject_twice]
  have hround := roundtrip_of_inverse caseTable p hinv
    ⟨c2.traceID, c2.spanID, c2.parentID, c1.sampled || c2.sampled⟩ h0 ht hs hp true true
  refine ⟨by rw [Inject_empty_entries], ?_, hround, ?_⟩
  · have := hround _ (List.Perm.refl _)
    rw [Inject_empty_entries] at this ⊢
    exact this
  · intro h1 _
    have hsm : (⟨c2.traceID, c2.spanID, c2.parentID, c1.sampled || c2.sampled⟩
        : SpanContext).sampled = true := by simp [h1]
    rw [Inject_writer p _ _ rfl]
    simp only at hsm ⊢
    rw [if_pos hsm]
    exact Get_Set_self _ _ _

theorem Inject_twice_Extract_witness :
    ((newHTTPHeaderPropagator = newTextMapPropagator ∨
        newHTTPHeaderPropagator = newHTTPHeaderPropagator) ∧
      (⟨255, 26, 7, false⟩ : SpanContext).traceID ≠ 0) ∧
    (newHTTPHeaderPropagator.Inject ⟨255, 26, 7, false⟩
        (newHTTPHeaderPropagator.Inject ⟨1, 2, 3, true⟩ ⟨true, true, []⟩).2).2
      = ⟨true, true, [(ascii "x-b3-traceid", ascii "ff"), (ascii "x-b3-parentspanid", ascii "7"),
          (ascii "x-b3-spanid", ascii "1a"), (ascii "x-b3-sampled", ascii "1")]⟩ ∧
    newHTTPHeaderPropagator.Extract id
        (newHTTPHeaderPropagator.Inject ⟨255, 26, 7, false⟩
          (newHTTPHeaderPropagator.Inject ⟨1, 2, 3, true⟩ ⟨true, true, []⟩).2).2
      = Except.ok ⟨255, 26, 7, true⟩ :=
  ⟨⟨Or.inr rfl, by decide⟩, rfl,
    (Inject_twice_Extract id newHTTPHeaderPropagator ⟨1, 2, 3, true⟩ ⟨255, 26, 7, false⟩
      (Or.inr rfl) (by decide) (by decide) (by decide) (by decide)).2.1⟩

/-! ### Values that do not unescape -/

theorem hasBadEscape_cons (c : Byte) (rest : List Byte) :
    hasBadEscape (c :: rest) =
      ((decide (c.val = 37) &&
        !(match rest with
          | a :: b :: _ => ishex a && ishex b
          | _ => false)) || hasBadEscape rest) := by
  rw [hasBadEscape.eq_def]

theorem hasBadEscape_of_ne (c : Byte) (rest : List Byte) (h : c.val ≠ 37) :
    hasBadEscape (c :: rest) = hasBadEscape rest := by
  rw [hasBadEscape_cons]
  simp [h]

/-- The first loop of `unescape` ends with an error exactly when some `%` is
not followed by two hexadecimal digits. -/
theorem unescapeScan_error_iff (n : Nat) : ∀ v : List Byte, v.length ≤ n →
    ((∃ e, unescapeScan v = Except.error e) ↔ hasBadEscape v = true) := by
  induction n with
  | zero =>
    intro v hv
    have : v = [] := List.length_eq_zero.mp (by omega)
    subst this
    simp [unescapeScan, hasBadEscape]
  | succ n ih =>
    intro v hv
    cases v with
    | nil => simp [unescapeScan, hasBadEscape]
    | cons c rest =>
      have hrest : rest.length ≤ n := by simpa using hv
      rw [unescapeScan_cons]
      by_cases h37 : c.val = 37
      · rw [if_pos h37]
        rcases rest with _ | ⟨a, _ | ⟨b, rest2⟩⟩
        · simp [hasBadEscape, h37]
        · simp [hasBadEscape, h37]
        · simp only
          by_cases hx : (ishex a && ishex b) = true
          · rw [if_pos hx]
            have ha : a.val ≠ 37 := (hex_byte_cases a).2 (by simp at hx; exact hx.1)
            have hb : b.val ≠ 37 := (hex_byte_cases b).2 (by simp at hx; exact hx.2)
            have e : hasBadEscape (c :: a :: b :: rest2) = hasBadEscape rest2 := by
              rw [hasBadEscape_cons]
              simp only [hx, Bool.not_true, Bool.and_false, Bool.false_or]
              rw [hasBadEscape_of_ne a _ ha, hasBadEscape_of_ne b _ hb]
            rw [e, ← ih rest2 (by simp at hrest; omega)]
            rcases unescapeScan rest2 with e2 | ⟨k, hp⟩ <;> simp
          · rw [if_neg hx]
            have e : hasBadEscape (c :: a :: b :: rest2) = true := by
              rw [hasBadEscape_cons]
              simp only [Bool.not_eq_true] at hx
              simp [h37, hx]
            rw [e]
            simp
      · rw [if_neg h37, hasBadEscape_of_ne c rest h37, ← ih rest hrest]
        by_cases h43 : c.val = 43
        · rw [if_pos h43]
          rcases unescapeScan rest with e2 | ⟨k, hp⟩ <;> simp
        · rw [if_neg h43]

theorem QueryUnescape_error_iff (v : GoString) :
    (QueryUnescape v).2 ≠ none ↔ hasBadEscape v = true := by
  rw [← unescapeScan_error_iff v.length v (le_refl _)]
  unfold QueryUnescape
  rcases unescapeScan v with e | ⟨k, hp⟩
  · simp
  · simp only [reduceCtorEq, exists_false, iff_false, not_not]
    split_ifs <;> rfl

theorem mem_of_hasBadEscape (v : List Byte) (h : hasBadEscape v = true) :
    ∃ c ∈ v, c.val = 37 := by
  induction v with
  | nil => simp [hasBadEscape] at h
  | cons c rest ih =>
    by_cases h37 : c.val = 37
    · exact ⟨c, List.mem_cons_self _ _, h37⟩
    · rw [hasBadEscape_of_ne c rest h37] at h
      obtain ⟨x, hx, hx37⟩ := ih h
      exact ⟨x, List.mem_cons_of_mem _ hx, hx37⟩

/-- C14: when `QueryUnescape` fails on a value `v`, which happens exactly
when some `%` in `v` is not followed by two hexadecimal digits, the
header-safe `decodeValue` returns `v` as it is, `ParseUint` rejects it, and
`Extract` under the header-safe profile on any carrier holding `v` under a
key that lower-cases to a numeric B3 key fails with a `NumError` of
`ParseUint`; it does not succeed. -/
theorem swallowed_decode_error (v : GoString) (hfail : (QueryUnescape v).2 ≠ none) :
    hasBadEscape v = true ∧
    newHTTPHeaderPropagator.decodeValue v = v ∧
    (∃ kind, (ParseUint (newHTTPHeaderPropagator.decodeValue v)).2
      = some (Error.NumError fnParseUint v kind)) ∧
    (∀ (caseTable : Nat → Nat) (w : Bool) (m : TextMap) (k : GoString), (k, v) ∈ m →
      IsNumericKey (ToLower caseTable k) →
      (∃ num kind, newHTTPHeaderPropagator.Extract caseTable ⟨w, true, m⟩ =
        Except.error (Error.NumError fnParseUint num kind)) ∧
      (∀ sc, newHTTPHeaderPropagator.Extract caseTable ⟨w, true, m⟩ ≠ Except.ok sc)) ∧
    (∀ (caseTable : Nat → Nat) (w : Bool) (k : GoString), IsNumericKey (ToLower caseTable k) →
      ∃ kind, newHTTPHeaderPropagator.Extract caseTable ⟨w, true, [(k, v)]⟩ =
        Except.error (Error.NumError fnParseUint v kind)) := by
  have hbad := (QueryUnescape_error_iff v).mp hfail
  have hdec : newHTTPHeaderPropagator.decodeValue v = v := by
    simp only [newHTTPHeaderPropagator]
    rcases hq : QueryUnescape v with ⟨x, _ | e⟩
    · rw [hq] at hfail; exact absurd rfl hfail
    · rfl
  have hnot : ¬ IsHexUint64 v := by
    rintro ⟨_, hd, _⟩
    obtain ⟨c, hc, h37⟩ := mem_of_hasBadEscape v hbad
    exact ((hex_byte_cases c).1 (hd c hc)).2 h37
  have hperr : ∃ kind, (ParseUint (newHTTPHeaderPropagator.decodeValue v)).2
      = some (Error.NumError fnParseUint v kind) := by
    rw [hdec]
    cases hp : (ParseUint v).2 with
    | none => exact absurd ((ParseUint_none_iff v).mp hp) hnot
    | some e =>
      obtain ⟨kind, hk⟩ := ParseUint_err v e hp
      exact ⟨kind, by rw [hk]⟩
  refine ⟨hbad, hdec, hperr, ?_, ?_⟩
  · intro caseTable w m k hmem hk
    have hn : ¬ NoParseError caseTable newHTTPHeaderPropagator m := by
      intro hno
      have := hno (k, v) hmem hk
      rw [hdec] at this
      exact hnot ((ParseUint_none_iff v).mp this)
    obtain ⟨num, kind, he⟩ := Extract_of_parseError caseTable newHTTPHeaderPropagator w m hn
    refine ⟨⟨num, kind, he⟩, ?_⟩
    intro sc hh
    rw [he] at hh
    exact Except.noConfusion hh
  · intro caseTable w k hk
    obtain ⟨kind, hkind⟩ := hperr
    exact ⟨kind, Extract_at_first_error caseTable newHTTPHeaderPropagator w [] [] k v _
      (fun kv hkv => absurd hkv (List.not_mem_nil _)) hk hkind⟩

theorem swallowed_decode_error_witness :
    (QueryUnescape (ascii "1f%2")).2 ≠ none ∧
    newHTTPHeaderPropagator.decodeValue (ascii "1f%2") = ascii "1f%2" ∧
    newHTTPHeaderPropagator.Extract id ⟨false, true, [(ascii "X-B3-TraceId", ascii "1f%2")]⟩
      = Except.error (Error.NumError fnParseUint (ascii "1f%2") NumErrKind.ErrSyntax) :=
  ⟨by decide,
    (swallowed_decode_error (ascii "1f%2") (by decide)).2.1, rfl⟩

/-! ### The 64-bit range -/

/-- On hexadecimal digits whose value does not fit 64 bits the loop returns
the range error. -/
theorem parseUintLoop_range (s0 : GoString) (cs : List Byte) (n : Nat) (hn : n < 2 ^ 64)
    (hd : ∀ c ∈ cs, (hexDigitVal c).isSome = true)
    (hv : 2 ^ 64 ≤ cs.foldl (fun acc c => acc * 16 + (hexDigitVal c).getD 0) n) :
    parseUintLoop s0 n cs = (maxUint64, some (rangeError fnParseUint s0)) := by
  induction cs generalizing n with
  | nil =>
    simp only [List.foldl_nil] at hv
    omega
  | cons c cs ih =>
    rw [parseUintLoop_cons]
    obtain ⟨d, hcd⟩ := Option.isSome_iff_exists.mp (hd c (List.mem_cons_self _ _))
    have hdlt := hexDigitVal_lt c d hcd
    simp only [List.foldl_cons, hcd, Option.getD_some] at hv ⊢
    by_cases hbig : n ≥ 2 ^ 60
    · rw [if_pos hbig]
    · rw [if_neg hbig]
      exact ih (n * 16 + d) (by omega) (fun x hx => hd x (List.mem_cons_of_mem _ hx)) hv

theorem hexValue_zeros (k : Nat) (s : GoString) :
    hexValue (List.replicate k (byte 48) ++ s) = hexValue s := by
  unfold hexValue
  rw [List.foldl_append]
  have hz : ∀ k, (List.replicate k (byte 48)).foldl
      (fun acc c => acc * 16 + (hexDigitVal c).getD 0) 0 = 0 := by
    intro k
    induction k with
    | zero => rfl
    | succ k ih =>
      rw [List.replicate_succ, List.foldl_cons]
      exact ih
  rw [hz]

theorem lower_hex_cases : ∀ c : Byte, (hexDigitVal c).isSome = true →
    hexDigitVal (lower c) = hexDigitVal c := by
  decide

theorem foldl_hex_lower (s : GoString) (n : Nat)
    (hd : ∀ c ∈ s, (hexDigitVal c).isSome = true) :
    (s.map lower).foldl (fun acc c => acc * 16 + (hexDigitVal c).getD 0) n
      = s.foldl (fun acc c => acc * 16 + (hexDigitVal c).getD 0) n := by
  induction s generalizing n with
  | nil => rfl
  | cons c s ih =>
    simp only [List.map_cons, List.foldl_cons]
    rw [lower_hex_cases c (hd c (List.mem_cons_self _ _)),
      ih _ (fun x hx => hd x (List.mem_cons_of_mem _ hx))]

/-- C17: a string of hexadecimal digits whose value is at least `2 ^ 64` is
rejected by `ParseUint` with the range error, and `Extract`, under either
profile, on a carrier holding it under a key that lower-cases to a numeric
B3 key fails with a `NumError`; it never succeeds, so no truncated value is
returned. A string of hexadecimal digits that is not empty and whose value
is below `2 ^ 64` parses to exactly that value, also with leading zeros put
in front and with its letters in lower case, and so under `x-b3-traceid` it
is the trace id `Extract` returns. -/
theorem hex_64_bit_range (s : GoString) (hd : ∀ c ∈ s, (hexDigitVal c).isSome = true) :
    (2 ^ 64 ≤ hexValue s →
      ParseUint s = (maxUint64, some (rangeError fnParseUint s)) ∧
      ∀ (caseTable : Nat → Nat) (p : textMapPropagator) (w : Bool) (m : TextMap)
        (k : GoString), p = newTextMapPropagator ∨ p = newHTTPHeaderPropagator →
        (k, s) ∈ m → IsNumericKey (ToLower caseTable k) →
        (∃ num kind, p.Extract caseTable ⟨w, true, m⟩ =
          Except.error (Error.NumError fnParseUint num kind)) ∧
        (∀ sc, p.Extract caseTable ⟨w, true, m⟩ ≠ Except.ok sc) ∧
        p.Extract caseTable ⟨w, true, [(k, s)]⟩ = Except.error (rangeError fnParseUint s)) ∧
    (s ≠ [] → hexValue s < 2 ^ 64 →
      ParseUint s = (hexValue s, none) ∧
      (∀ z, ParseUint (List.replicate z (byte 48) ++ s) = (hexValue s, none)) ∧
      ParseUint (s.map lower) = (hexValue s, none) ∧
      (hexValue s ≠ 0 → ∀ (caseTable : Nat → Nat) (p : textMapPropagator) (w : Bool),
        p = newTextMapPropagator ∨ p = newHTTPHeaderPropagator →
        p.Extract caseTable ⟨w, true, [(keyTraceID, s)]⟩ =
          Except.ok ⟨hexValue s, 0, 0, false⟩)) := by
  have hdec : ∀ p : textMapPropagator, p = newTextMapPropagator ∨ p = newHTTPHeaderPropagator →
      p.decodeValue s = s := by
    intro p hp
    rcases hp with rfl | rfl
    · rfl
    · exact http_decode_of_hex s hd
  refine ⟨?_, ?_⟩
  · intro hbig
    have hne : s ≠ [] := by
      rintro rfl
      have : hexValue ([] : GoString) = 0 := rfl
      omega
    have hparse : ParseUint s = (maxUint64, some (rangeError fnParseUint s)) := by
      unfold ParseUint
      rw [if_neg hne]
      exact parseUintLoop_range s s 0 (by decide) hd hbig
    refine ⟨hparse, ?_⟩
    intro caseTable p w m k hp hmem hk
    have herr : (ParseUint (p.decodeValue s)).2 = some (rangeError fnParseUint s) := by
      rw [hdec p hp, hparse]
    have hn : ¬ NoParseError caseTable p m := by
      intro hno
      rw [hno (k, s) hmem hk] at herr
      exact Option.noConfusion herr
    obtain ⟨num, kind, he⟩ := Extract_of_parseError caseTable p w m hn
    refine ⟨⟨num, kind, he⟩, ?_, ?_⟩
    · intro sc hh
      rw [he] at hh
      exact Except.noConfusion hh
    · exact Extract_at_first_error caseTable p w [] [] k s _
        (fun kv hkv => absurd hkv (List.not_mem_nil _)) hk herr
  · intro hne hlt
    have hvalid : IsHexUint64 s := ⟨hne, hd, hlt⟩
    have hzero : ∀ z, ParseUint (List.replicate z (byte 48) ++ s) = (hexValue s, none) := by
      intro z
      have hv : IsHexUint64 (List.replicate z (byte 48) ++ s) := by
        refine ⟨by simp [hne], ?_, by rw [hexValue_zeros]; exact hlt⟩
        intro c hc
        rcases List.mem_append.mp hc with hc | hc
        · rw [(List.mem_replicate.mp hc).2]
          decide
        · exact hd c hc
      rw [ParseUint_of_valid _ hv, hexValue_zeros]
    have hlow : ParseUint (s.map lower) = (hexValue s, none) := by
      have hval : hexValue (s.map lower) = hexValue s := foldl_hex_lower s 0 hd
      have hv : IsHexUint64 (s.map lower) := by
        refine ⟨by simp [hne], ?_, by rw [hval]; exact hlt⟩
        intro c hc
        rw [List.mem_map] at hc
        obtain ⟨x, hx, rfl⟩ := hc
        rw [lower_hex_cases x (hd x hx)]
        exact hd x hx
      rw [ParseUint_of_valid _ hv, hval]
    refine ⟨ParseUint_of_valid s hvalid, hzero, hlow, ?_⟩
    intro hnz caseTable p w hp
    have hwf : ∀ kv ∈ [(keyTraceID, s)], IsNumericKey (ToLower caseTable kv.1) →
        IsHexUint64 (p.decodeValue kv.2) := by
      intro kv hkv _
      rw [List.mem_singleton] at hkv
      rw [hkv, hdec p hp]
      exact hvalid
    have hno := noParseError_of_valid caseTable p _ hwf
    rw [Extract_of_noParseError caseTable p w _ hno]
    have e1 : lastValue caseTable p keyTraceID [(keyTraceID, s)] = some (hexValue s) := by
      simp only [lastValue, (ToLower_keys caseTable).1, if_true, hdec p hp,
        ParseUint_of_valid s hvalid]
    have e2 : lastValue caseTable p keySpanID [(keyTraceID, s)] = none := by
      simp only [lastValue, (ToLower_keys caseTable).1, keys_distinct.2.1, if_false]
    have e3 : lastValue caseTable p keyParentSpanID [(keyTraceID, s)] = none := by
      simp only [lastValue, (ToLower_keys caseTable).1, keys_distinct.1, if_false]
    have e4 : hasKey caseTable keySampled [(keyTraceID, s)] = false := by
      simp [hasKey, (ToLower_keys caseTable).1, keys_distinct.2.2.1]
    rw [e1, e2, e3, e4]
    simp only [Option.getD_some, Option.getD_none, if_neg hnz]
    rfl

theorem hex_64_bit_range_witness :
    (∀ c ∈ ascii "10000000000000000", (hexDigitVal c).isSome = true) ∧
    2 ^ 64 ≤ hexValue (ascii "10000000000000000") ∧
    newHTTPHeaderPropagator.Extract id
        ⟨false, true, [(ascii "X-B3-TraceId", ascii "10000000000000000")]⟩
      = Except.error (rangeError fnParseUint (ascii "10000000000000000")) ∧
    newTextMapPropagator.Extract id
        ⟨false, true, [(ascii "x-b3-traceid", ascii "463ac35c9f6413ad48485a3953bb6124")]⟩
      = Except.error (rangeError fnParseUint (ascii "463ac35c9f6413ad48485a3953bb6124")) ∧
    ParseUint (ascii "000FFFFFFFFFFFFFFFF") = (18446744073709551615, none) ∧
    ParseUint (ascii "00aBcD") = (43981, none) :=
  ⟨by decide, by decide,
    ((hex_64_bit_range (ascii "10000000000000000") (by decide)).1 (by decide)).2 id
      newHTTPHeaderPropagator false [(ascii "X-B3-TraceId", ascii "10000000000000000")]
      (ascii "X-B3-TraceId") (Or.inr rfl) (by decide) (by decide) |>.2.2,
    rfl,
    ((hex_64_bit_range (ascii "FFFFFFFFFFFFFFFF") (by decide)).2 (by decide) (by decide)).2.1 3,
    ((hex_64_bit_range (ascii "00aBcD") (by decide)).2 (by decide) (by decide)).1⟩

end B3
